import Mathlib

/-!
Shallow embedding of the terminal-chatroom server core
(`src/unnamed/part_001`, with `src/server.js` and `src/unnamed/part_000`
as near-identical variants; the WebSocket core is line-for-line the same).

JavaScript strings are modelled as `List Char`; the dynamically typed
fields of a parsed JSON frame are modelled by `JSVal`.  The mutable
module-level state (`clients`, `chatHistory`, `sessions`, plus the
per-connection `registered` flag and the fact that the message/close
handlers are only attached once the token check has passed) is collected
in `ServerState`, and each reactor callback (connection, message, close)
becomes a pure transition producing the next state and the list of
frames the server writes out.  An uncaught JavaScript exception escaping
a handler (which would kill the Node process) is modelled by `Except`:
the `.error` outcome sets a `crashed` flag after which no further event
is processed.
-/

namespace TC

/-- JS whitespace (the ASCII part plus NBSP/BOM), by code point. -/
def isWS (c : Char) : Bool :=
  c.toNat = 32 || c.toNat = 9 || c.toNat = 10 || c.toNat = 13 ||
  c.toNat = 11 || c.toNat = 12 || c.toNat = 160 || c.toNat = 65279

/-- `String.prototype.toLowerCase` on one character (ASCII letters). -/
def jsLowerChar (c : Char) : Char :=
  if 65 ≤ c.toNat ∧ c.toNat ≤ 90 then Char.ofNat (c.toNat + 32) else c

/-- `s.toLowerCase()`. -/
def jsToLower (l : List Char) : List Char := l.map jsLowerChar

/-- `s.trim()`: strip whitespace from both ends. -/
def jsTrim (l : List Char) : List Char :=
  (((l.dropWhile isWS).reverse).dropWhile isWS).reverse

/-- characters kept by `.replace(/[^a-zA-Z0-9_-]/g, "")`. -/
def isNameChar (c : Char) : Bool :=
  (97 ≤ c.toNat && c.toNat ≤ 122) || (65 ≤ c.toNat && c.toNat ≤ 90) ||
  (48 ≤ c.toNat && c.toNat ≤ 57) || c.toNat = 95 || c.toNat = 45

/-- the name sanitizer shared by join and `/nick`:
`.replace(/[^a-zA-Z0-9_-]/g, "").slice(0, 20)`. -/
def sanitizeName (l : List Char) : List Char := (l.filter isNameChar).take 20

/-- `text.split(" ")` (split on the single space character). -/
def splitSp : List Char → List (List Char)
  | [] => [[]]
  | c :: cs =>
    if c = ' ' then [] :: splitSp cs
    else
      match splitSp cs with
      | [] => [[c]]
      | t :: ts => (c :: t) :: ts

/-- `parts.join(" ")`. -/
def joinSp : List (List Char) → List Char
  | [] => []
  | [x] => x
  | x :: xs => x ++ ' ' :: joinSp xs

/-- `parts.join(", ")`. -/
def joinCommaSp : List (List Char) → List Char
  | [] => []
  | [x] => x
  | x :: xs => x ++ ',' :: ' ' :: joinCommaSp xs

/-- decimal rendering of a number, for the `/users` reply. -/
def natChars (n : Nat) : List Char := (toString n).data

/-- A JavaScript value as it can appear in a field of a parsed JSON
frame (`msg.type`, `msg.username`, `msg.text`); a missing field reads as
`undef`. -/
inductive JSVal where
  | str (s : List Char)
  | num (n : Int)
  | boolean (b : Bool)
  | null
  | undef
deriving DecidableEq

/-- JS truthiness of a `JSVal`. -/
def truthy : JSVal → Bool
  | .str s => !s.isEmpty
  | .num n => n ≠ 0
  | .boolean b => b
  | .null => false
  | .undef => false

/-- strict equality `v === "lit"` against a string literal. -/
def jsEqStr (v : JSVal) (s : List Char) : Bool :=
  match v with
  | .str t => t = s
  | _ => false

/-- A parsed incoming frame: the fields the server reads.  Reading an
absent field yields `JSVal.undef`. -/
structure JMsg where
  type : JSVal
  username : JSVal
  text : JSVal
deriving DecidableEq

/-- What arrives on the wire: either bytes `JSON.parse` rejects, or a
parsed frame. -/
inductive Frame where
  | malformed
  | parsed (m : JMsg)
deriving DecidableEq

/-- One entry of `chatHistory` (an immutable tagged event). -/
inductive HEvent where
  | system (message : List Char) (time : Nat)
  | action (username message : List Char) (time : Nat)
  | chat (username text : List Char) (time : Nat)
deriving DecidableEq

def HEvent.time : HEvent → Nat
  | .system _ t => t
  | .action _ _ t => t
  | .chat _ _ t => t

def HEvent.isChat : HEvent → Bool
  | .chat _ _ _ => true
  | _ => false

/-- A frame the server writes out. -/
inductive OutFrame where
  | error (message : List Char)
  | history (messages : List HEvent)
  | system (message : List Char) (time : Nat)
  | action (username message : List Char) (time : Nat)
  | chat (username text : List Char) (time : Nat)
  | users (list : List (List Char))
  | clear
deriving DecidableEq

def OutFrame.isChat : OutFrame → Bool
  | .chat _ _ _ => true
  | _ => false

/-- An observable effect of one handler run: a `ws.send` to one
connection, a `broadcast` of one event to every registered writable
connection, or a `ws.close()`. -/
inductive Out where
  | sendTo (conn : Nat) (f : OutFrame)
  | broadcastOut (f : OutFrame)
  | closeConn (conn : Nat)
deriving DecidableEq

/-- membership in a list of connection ids. -/
def memb (n : Nat) : List Nat → Bool
  | [] => false
  | m :: ms => if m = n then true else memb n ms

/-- `Map.prototype.get` on the `clients` map (first match). -/
def mapGet (k : Nat) : List (Nat × List Char) → Option (List Char)
  | [] => none
  | p :: ps => if p.1 = k then some p.2 else mapGet k ps

/-- `Map.prototype.set`: replace in place if the key is present
(keeping its insertion position), else append. -/
def mapSet (k : Nat) (v : List Char) : List (Nat × List Char) → List (Nat × List Char)
  | [] => [(k, v)]
  | p :: ps => if p.1 = k then (k, v) :: ps else p :: mapSet k v ps

/-- `Map.prototype.delete`. -/
def mapDelete (k : Nat) (cs : List (Nat × List Char)) : List (Nat × List Char) :=
  cs.filter (fun p => p.1 ≠ k)

/-- `[...clients.values()].map((c) => c.username)`. -/
def userList (cs : List (Nat × List Char)) : List (List Char) := cs.map (·.2)

/-- The whole mutable state of the server process.  `logAll` is a ghost
field recording every event ever pushed to `chatHistory`, in order (it
is written exactly where `chatHistory.push` runs and never truncated);
`handshaked` is the set of connections whose token check passed (i.e.
whose `message`/`close` handlers were attached); `crashed` records that
an uncaught exception escaped a handler and killed the process. -/
structure ServerState where
  clients : List (Nat × List Char)
  chatHistory : List HEvent
  logAll : List HEvent
  sessions : List (List Char)
  handshaked : List Nat
  registered : List Nat
  crashed : Bool
deriving DecidableEq

/-- `chatHistory.push(ev); if (chatHistory.length > MAX_HISTORY) chatHistory.shift();`
(`MAX_HISTORY = 200`; `shift()` removes the entry at index 0). -/
def pushHistory (h : List HEvent) (ev : HEvent) : List HEvent :=
  if 200 < (h ++ [ev]).length then (h ++ [ev]).tail else h ++ [ev]

/-- push an event: history buffer plus the ghost log. -/
def pushEvent (σ : ServerState) (ev : HEvent) : ServerState :=
  { σ with chatHistory := pushHistory σ.chatHistory ev, logAll := σ.logAll ++ [ev] }

def joinLit : List Char := "join".data
def chatLit : List Char := "chat".data
def anonLit : List Char := "anon".data
def helpLit : List Char := "/help".data
def usersLit : List Char := "/users".data
def meLit : List Char := "/me".data
def nickLit : List Char := "/nick".data
def clearLit : List Char := "/clear".data

def authRequiredMsg : List Char :=
  "Auth required: must connect using launcher token".data

def joinTakenMsg (u : List Char) : List Char :=
  "Username \"".data ++ u ++ "\" is already taken.".data

def nickTakenMsg (u : List Char) : List Char :=
  "\"".data ++ u ++ "\" is already taken.".data

def nickUsageMsg : List Char := "Usage: /nick <newname>".data

def helpText : List Char :=
  "Commands: /help, /users, /me <action>, /nick <newname>, /clear".data

def unknownCmdMsg (cmd : List Char) : List Char :=
  "Unknown command: ".data ++ cmd

def joinedSuffix : List Char := " joined the room".data
def leftSuffix : List Char := " left the room".data
def knownAsMid : List Char := " is now known as ".data

def usersReply (cs : List (Nat × List Char)) : List Char :=
  "Online (".data ++ natChars (userList cs).length ++ "): ".data ++
    joinCommaSp (userList cs)

/-- `(msg.username || "anon").replace(/[^a-zA-Z0-9_-]/g, "").slice(0, 20) || "anon"`:
`some` sanitized name, or `none` when the expression throws (calling
`.replace` on a truthy non-string). -/
def joinName (v : JSVal) : Option (List Char) :=
  match (if truthy v then v else .str anonLit) with
  | .str u =>
    let x := sanitizeName u
    some (if x.isEmpty then anonLit else x)
  | _ => none

/-- the duplicate check `([...clients.values()].some((c) =>
c.username.toLowerCase() === name.toLowerCase()))`. -/
def nameTaken (cs : List (Nat × List Char)) (name : List Char) : Bool :=
  cs.any (fun p => jsToLower p.2 = jsToLower name)

/-- add a connection id to a flag set (idempotently: setting the
boolean `registered = true` twice is one membership). -/
def insertOnce (n : Nat) (l : List Nat) : List Nat :=
  if memb n l then l else n :: l

/-- the `msg.type === "join"` branch of the message handler.  Note that
in the source this branch runs *before* the `if (!registered) return;`
guard, so it also runs on connections that are already registered. -/
def handleJoin (σ : ServerState) (conn : Nat) (m : JMsg) (now : Nat) :
    Except Unit (ServerState × List Out) :=
  match joinName m.username with
  | none => .error ()   -- TypeError: msg.username.replace is not a function
  | some username =>
    if nameTaken σ.clients username then
      .ok (σ, [.sendTo conn (.error (joinTakenMsg username))])
    else
      let clients' := mapSet conn username σ.clients
      let joinEv := HEvent.system (username ++ joinedSuffix) now
      let σ' := pushEvent
        { σ with
          clients := clients',
          registered := insertOnce conn σ.registered } joinEv
      .ok (σ', [.sendTo conn (.history σ.chatHistory),
                .broadcastOut (.system (username ++ joinedSuffix) now),
                .broadcastOut (.users (userList clients'))])

/-- the command block and plain-chat tail of the chat branch, entered
with the non-empty trimmed text `t`. -/
def handleChat (σ : ServerState) (conn : Nat) (t : List Char) (now : Nat) :
    Except Unit (ServerState × List Out) :=
  match mapGet conn σ.clients with
  | none => .error ()   -- const { username } = clients.get(ws) on undefined
  | some username =>
    let text := t.take 500
    if text.headD ' ' = '/' then
      let parts := splitSp text
      let cmd := jsToLower (parts.headD [])
      if cmd = helpLit then
        .ok (σ, [.sendTo conn (.system helpText now)])
      else if cmd = usersLit then
        .ok (σ, [.sendTo conn (.system (usersReply σ.clients) now)])
      else if cmd = meLit then
        let action := let j := joinSp (parts.drop 1); if j.isEmpty then "...".data else j
        let ev := HEvent.action username (username ++ ' ' :: action) now
        .ok (pushEvent σ ev, [.broadcastOut (.action username (username ++ ' ' :: action) now)])
      else if cmd = nickLit then
        let newName := sanitizeName (parts.getD 1 [])
        if newName.isEmpty then
          .ok (σ, [.sendTo conn (.error nickUsageMsg)])
        else if nameTaken σ.clients newName then
          .ok (σ, [.sendTo conn (.error (nickTakenMsg newName))])
        else
          let clients' := mapSet conn newName σ.clients
          let ev := HEvent.system (username ++ knownAsMid ++ newName) now
          .ok (pushEvent { σ with clients := clients' } ev,
               [.broadcastOut (.system (username ++ knownAsMid ++ newName) now),
                .broadcastOut (.users (userList clients'))])
      else if cmd = clearLit then
        .ok (σ, [.sendTo conn .clear])
      else
        .ok (σ, [.sendTo conn (.error (unknownCmdMsg cmd))])
    else
      let ev := HEvent.chat username text now
      .ok (pushEvent σ ev, [.broadcastOut (.chat username text now)])

/-- the whole `ws.on("message")` handler body. -/
def onMessage (σ : ServerState) (conn : Nat) (fr : Frame) (now : Nat) :
    Except Unit (ServerState × List Out) :=
  match fr with
  | .malformed => .ok (σ, [])   -- JSON.parse threw; caught, silent return
  | .parsed m =>
    if jsEqStr m.type joinLit then handleJoin σ conn m now
    else if !memb conn σ.registered then .ok (σ, [])
    else if jsEqStr m.type chatLit && truthy m.text then
      match m.text with
      | .str s => if (jsTrim s).isEmpty then .ok (σ, []) else handleChat σ conn (jsTrim s) now
      | _ => .error ()   -- TypeError: msg.text.trim is not a function
    else .ok (σ, [])

/-- the `ws.on("close")` handler body (removal from `handshaked` models
that a closed socket emits no further events). -/
def onClose (σ : ServerState) (conn : Nat) (now : Nat) :
    Except Unit (ServerState × List Out) :=
  if memb conn σ.registered then
    match mapGet conn σ.clients with
    | none => .error ()
    | some username =>
      let clients' := mapDelete conn σ.clients
      let ev := HEvent.system (username ++ leftSuffix) now
      let σ' := pushEvent
        { σ with
          clients := clients',
          registered := σ.registered.filter (· ≠ conn),
          handshaked := σ.handshaked.filter (· ≠ conn) } ev
      .ok (σ', [.broadcastOut (.system (username ++ leftSuffix) now),
                .broadcastOut (.users (userList clients'))])
  else
    .ok ({ σ with handshaked := σ.handshaked.filter (· ≠ conn) }, [])

/-- the `wss.on("connection")` token check.  A connection id already in
`handshaked` denotes a socket that is still open; the runtime hands the
server a fresh socket object for every connection, which the model
expresses by making a reused id a no-op. -/
def handleConnection (σ : ServerState) (conn : Nat) (tok : Option (List Char)) :
    ServerState × List Out :=
  if memb conn σ.handshaked then (σ, [])
  else
    match tok with
    | some t =>
      -- `if (!token || !sessions.has(token))`: an empty token string is falsy
      if t.isEmpty || !σ.sessions.contains t then
        (σ, [.sendTo conn (.error authRequiredMsg), .closeConn conn])
      else
        ({ σ with handshaked := conn :: σ.handshaked }, [])
    | none => (σ, [.sendTo conn (.error authRequiredMsg), .closeConn conn])

/-- An external event the reactor dispatches. -/
inductive Ev where
  | connect (conn : Nat) (tok : Option (List Char))
  | message (conn : Nat) (fr : Frame) (now : Nat)
  | close (conn : Nat) (now : Nat)
deriving DecidableEq

/-- one reactor dispatch.  Message/close handlers only exist for
handshaked connections; a crashed process does nothing. -/
def step (σ : ServerState) (e : Ev) : ServerState × List Out :=
  if σ.crashed then (σ, [])
  else
    match e with
    | .connect conn tok => handleConnection σ conn tok
    | .message conn fr now =>
      if memb conn σ.handshaked then
        match onMessage σ conn fr now with
        | .ok r => r
        | .error _ => ({ σ with crashed := true }, [])
      else (σ, [])
    | .close conn now =>
      if memb conn σ.handshaked then
        match onClose σ conn now with
        | .ok r => r
        | .error _ => ({ σ with crashed := true }, [])
      else (σ, [])

/-- process start: empty registry and history; `sessions` holds the
tokens the gate has issued so far. -/
def init (sessions : List (List Char)) : ServerState :=
  ⟨[], [], [], sessions, [], [], false⟩

/-- the state after the reactor has dispatched a sequence of events. -/
def run (sessions : List (List Char)) (es : List Ev) : ServerState :=
  es.foldl (fun σ e => (step σ e).1) (init sessions)

/-! ### Fixtures used by witnesses and counterexamples -/

def wTok : List Char := "tok".data

def wJoin (u : List Char) : JMsg := ⟨.str joinLit, .str u, .undef⟩

def wChat (s : List Char) : JMsg := ⟨.str chatLit, .undef, .str s⟩

/-- one accepted connection that registered as `alice`. -/
def wES : List Ev := [.connect 1 (some wTok), .message 1 (.parsed (wJoin "alice".data)) 1]

def wS1 : ServerState := run [wTok] wES

/-- a longer fixture: `alice` has chatted once and a second connection
has passed the token check but not yet joined. -/
def wES3 : List Ev :=
  wES ++ [.message 1 (.parsed (wChat "hi".data)) 2, .connect 2 (some wTok)]

def wS3 : ServerState := run [wTok] wES3

/-- a 501-character trimmed chat text starting with a slash. -/
def wLongSlash : List Char := '/' :: List.replicate 500 'a'

/-- a 600-character plain chat text. -/
def wLongPlain : List Char := List.replicate 600 'b'

/-- does a chat `text` field dispatch to the nick branch?  Mirrors the
command selection of the handler: trim, slice to 500, split on single
spaces, lowercase the first part. -/
def isNickText : JSVal → Bool
  | .str s => jsToLower ((splitSp ((jsTrim s).take 500)).headD []) = nickLit
  | _ => false

/-- the first whitespace-separated token of a text (the claim-side
notion of command token). -/
def wsFirstTok (l : List Char) : List Char := l.takeWhile (fun c => !isWS c)

/-- the five recognized commands. -/
def cmdList : List (List Char) := [helpLit, usersLit, meLit, nickLit, clearLit]

/-- the frame carried by an output effect, if any. -/
def Out.frameOf : Out → Option OutFrame
  | .sendTo _ f => some f
  | .broadcastOut f => some f
  | .closeConn _ => none

/-- the first element of `text.split(" ")`: the characters before the
first space. -/
def spaceTok : List Char → List Char
  | [] => []
  | c :: cs => if c = ' ' then [] else c :: spaceTok cs



/-! ### Basic lemmas about the map / membership helpers -/

theorem memb_iff_mem (n : Nat) (l : List Nat) : memb n l = true ↔ n ∈ l := by
  induction l with
  | nil => simp [memb]
  | cons m ms ih =>
    simp only [memb]
    by_cases h : m = n
    · subst h; simp
    · rw [if_neg h, ih]
      constructor
      · exact fun h' => List.mem_cons_of_mem _ h'
      · intro h'
        rcases List.mem_cons.1 h' with h' | h'
        · exact absurd h'.symm h
        · exact h'

theorem mapGet_mapSet_self (k : Nat) (v : List Char) (cs : List (Nat × List Char)) :
    mapGet k (mapSet k v cs) = some v := by
  induction cs with
  | nil => simp [mapSet, mapGet]
  | cons p ps ih =>
    by_cases h : p.1 = k
    · simp [mapSet, mapGet, h]
    · simp [mapSet, mapGet, h, ih]

theorem mapGet_mapSet_ne (k c : Nat) (v : List Char) (cs : List (Nat × List Char))
    (h : c ≠ k) : mapGet c (mapSet k v cs) = mapGet c cs := by
  have hkc : ¬ (k = c) := fun e => h e.symm
  induction cs with
  | nil => simp [mapSet, mapGet, hkc]
  | cons p ps ih =>
    simp only [mapSet]
    by_cases hp : p.1 = k
    · rw [if_pos hp]
      simp only [mapGet]
      rw [if_neg hkc, if_neg (hp ▸ hkc)]
    · rw [if_neg hp]
      simp only [mapGet]
      by_cases hc : p.1 = c
      · rw [if_pos hc, if_pos hc]
      · rw [if_neg hc, if_neg hc, ih]

theorem mapGet_mapDelete_ne (k c : Nat) (cs : List (Nat × List Char)) (h : c ≠ k) :
    mapGet c (mapDelete k cs) = mapGet c cs := by
  induction cs with
  | nil => rfl
  | cons p ps ih =>
    by_cases hp : p.1 = k
    · have hfc : mapDelete k (p :: ps) = mapDelete k ps := by
        simp [mapDelete, List.filter_cons, hp]
      have hpc : ¬ (p.1 = c) := by rw [hp]; exact fun e => h e.symm
      rw [hfc, ih]
      simp only [mapGet]
      rw [if_neg hpc]
    · have hfc : mapDelete k (p :: ps) = p :: mapDelete k ps := by
        simp [mapDelete, List.filter_cons, hp]
      rw [hfc]
      simp only [mapGet]
      by_cases hc : p.1 = c
      · rw [if_pos hc, if_pos hc]
      · rw [if_neg hc, if_neg hc, ih]

theorem mem_mapSet (k : Nat) (v : List Char) (cs : List (Nat × List Char))
    (p : Nat × List Char) (h : p ∈ mapSet k v cs) : p = (k, v) ∨ p ∈ cs := by
  induction cs with
  | nil => simpa [mapSet] using h
  | cons q qs ih =>
    by_cases hq : q.1 = k
    · simp only [mapSet, if_pos hq] at h
      rcases List.mem_cons.1 h with h | h
      · exact .inl h
      · exact .inr (List.mem_cons_of_mem _ h)
    · simp only [mapSet, if_neg hq] at h
      rcases List.mem_cons.1 h with h | h
      · exact .inr (h ▸ List.mem_cons_self _ _)
      · rcases ih h with h | h
        · exact .inl h
        · exact .inr (List.mem_cons_of_mem _ h)

theorem nameTaken_false {cs : List (Nat × List Char)} {name : List Char}
    (h : nameTaken cs name = false) :
    ∀ p ∈ cs, jsToLower p.2 ≠ jsToLower name := by
  intro p hp hEq
  have ht : nameTaken cs name = true := by
    unfold nameTaken
    exact List.any_eq_true.2 ⟨p, hp, by simp [hEq]⟩
  rw [h] at ht
  exact Bool.noConfusion ht

/-! ### The history buffer primitive -/

theorem pushHistory_length_le (h : List HEvent) (ev : HEvent) (hh : h.length ≤ 200) :
    (pushHistory h ev).length ≤ 200 := by
  unfold pushHistory
  by_cases hc : 200 < (h ++ [ev]).length
  · rw [if_pos hc]
    have ht := List.length_tail (h ++ [ev])
    simp only [List.length_append, List.length_cons, List.length_nil] at ht hc ⊢
    omega
  · rw [if_neg hc]
    simp only [List.length_append, List.length_cons, List.length_nil] at hc ⊢
    omega

theorem pushHistory_at_capacity (h : List HEvent) (ev : HEvent) (hh : h.length = 200) :
    pushHistory h ev = h.tail ++ [ev] := by
  have hl : 200 < (h ++ [ev]).length := by
    simp only [List.length_append, List.length_cons, List.length_nil]; omega
  unfold pushHistory
  rw [if_pos hl]
  cases h with
  | nil => simp at hh
  | cons x xs => simp

theorem pushHistory_no_evict (h : List HEvent) (ev : HEvent) (hh : h.length ≤ 199) :
    pushHistory h ev = h ++ [ev] := by
  have hl : ¬ 200 < (h ++ [ev]).length := by
    simp only [List.length_append, List.length_cons, List.length_nil]; omega
  unfold pushHistory
  rw [if_neg hl]

theorem foldl_pushHistory_small (l : List HEvent) :
    ∀ acc : List HEvent, acc.length + l.length ≤ 200 →
      l.foldl pushHistory acc = acc ++ l := by
  induction l with
  | nil => intro acc _; simp
  | cons e es ih =>
    intro acc hlen
    simp only [List.length_cons] at hlen
    rw [List.foldl_cons, pushHistory_no_evict acc e (by omega),
        ih (acc ++ [e]) (by simp; omega)]
    simp

theorem foldl_pushHistory_201 (l : List HEvent) (hl : l.length = 201) :
    l.foldl pushHistory [] = l.drop 1 := by
  cases l with
  | nil => simp at hl
  | cons e rest =>
    simp only [List.length_cons] at hl
    have hr : rest.length = 200 := by omega
    have hne : rest ≠ [] := by
      intro h; rw [h] at hr; simp at hr
    have hsplit : rest.dropLast ++ [rest.getLast hne] = rest :=
      List.dropLast_append_getLast hne
    have hdl : rest.dropLast.length = 199 := by
      have := List.length_dropLast rest; omega
    calc (e :: rest).foldl pushHistory []
        = rest.foldl pushHistory (pushHistory [] e) := by rw [List.foldl_cons]
      _ = rest.foldl pushHistory [e] := by
            rw [pushHistory_no_evict [] e (by simp), List.nil_append]
      _ = (rest.dropLast ++ [rest.getLast hne]).foldl pushHistory [e] := by rw [hsplit]
      _ = pushHistory (rest.dropLast.foldl pushHistory [e]) (rest.getLast hne) := by
            rw [List.foldl_append, List.foldl_cons, List.foldl_nil]
      _ = pushHistory ([e] ++ rest.dropLast) (rest.getLast hne) := by
            rw [foldl_pushHistory_small rest.dropLast [e] (by simp [hdl])]
      _ = ([e] ++ rest.dropLast).tail ++ [rest.getLast hne] :=
            pushHistory_at_capacity _ _ (by simp [hdl])
      _ = rest.dropLast ++ [rest.getLast hne] := by simp
      _ = rest := hsplit
      _ = (e :: rest).drop 1 := by simp

/-! ### The server invariant -/

/-- well-formedness of the `clients` map: pairwise distinct keys and
pairwise case-insensitively distinct display names. -/
def ClientsOk (cs : List (Nat × List Char)) : Prop :=
  cs.Pairwise (fun a b => a.1 ≠ b.1 ∧ jsToLower a.2 ≠ jsToLower b.2)

/-- the reachable-state invariant: the registry is well-formed, every
registered connection has a registry entry, the history buffer is
bounded by 200, and while at most 200 events have ever been appended
the buffer holds exactly all of them. -/
def Inv (σ : ServerState) : Prop :=
  ClientsOk σ.clients ∧
  (∀ c, memb c σ.registered = true → (mapGet c σ.clients).isSome) ∧
  σ.chatHistory.length ≤ 200 ∧
  (σ.logAll.length ≤ 200 → σ.chatHistory = σ.logAll)

theorem clientsOk_mapSet {cs : List (Nat × List Char)} {v : List Char} (k : Nat)
    (hok : ClientsOk cs) (hv : ∀ p ∈ cs, jsToLower p.2 ≠ jsToLower v) :
    ClientsOk (mapSet k v cs) := by
  induction cs with
  | nil => simp [mapSet, ClientsOk]
  | cons p ps ih =>
    rcases (List.pairwise_cons.1 hok) with ⟨hp, hps⟩
    by_cases hq : p.1 = k
    · rw [mapSet, if_pos hq]
      refine List.pairwise_cons.2 ⟨?_, hps⟩
      intro q hq'
      refine ⟨?_, ?_⟩
      · exact fun e => (hp q hq').1 (hq.trans e)
      · exact fun e => hv q (List.mem_cons_of_mem _ hq') (e.symm)
    · rw [mapSet, if_neg hq]
      refine List.pairwise_cons.2 ⟨?_, ih hps (fun q hq' => hv q (List.mem_cons_of_mem _ hq'))⟩
      intro q hq'
      rcases mem_mapSet k v ps q hq' with h | h
      · subst h
        exact ⟨fun e => hq e, fun e => hv p (List.mem_cons_self _ _) e⟩
      · exact hp q h

theorem clientsOk_mapDelete {cs : List (Nat × List Char)} (k : Nat)
    (hok : ClientsOk cs) : ClientsOk (mapDelete k cs) :=
  hok.sublist (List.filter_sublist cs)

theorem inv_init (ss : List (List Char)) : Inv (init ss) := by
  refine ⟨List.Pairwise.nil, ?_, by simp [init], fun _ => rfl⟩
  intro c hc
  simp [init, memb] at hc

theorem memb_insertOnce (c n : Nat) (l : List Nat) :
    memb c (insertOnce n l) = true ↔ c = n ∨ memb c l = true := by
  unfold insertOnce
  by_cases h : memb n l = true
  · rw [if_pos h]
    constructor
    · exact .inr
    · rintro (rfl | h') 
      · exact h
      · exact h'
  · rw [if_neg h]
    simp only [memb_iff_mem] at *
    constructor
    · intro h'
      rcases List.mem_cons.1 h' with h' | h'
      · exact .inl h'
      · exact .inr h'
    · rintro (rfl | h')
      · exact List.mem_cons_self _ _
      · exact List.mem_cons_of_mem _ h'

theorem memb_filter_ne {c conn : Nat} {l : List Nat}
    (h : memb c (l.filter (· ≠ conn)) = true) : c ≠ conn ∧ memb c l = true := by
  rw [memb_iff_mem] at h
  rcases List.mem_filter.1 h with ⟨hm, hd⟩
  exact ⟨of_decide_eq_true hd, (memb_iff_mem _ _).2 hm⟩

/-- the history part of the invariant survives one `pushEvent`. -/
theorem hist_inv_push {hist log : List HEvent} (ev : HEvent)
    (hlen : hist.length ≤ 200) (hsm : log.length ≤ 200 → hist = log) :
    (pushHistory hist ev).length ≤ 200 ∧
      ((log ++ [ev]).length ≤ 200 → pushHistory hist ev = log ++ [ev]) := by
  refine ⟨pushHistory_length_le _ _ hlen, ?_⟩
  intro hl
  simp only [List.length_append, List.length_cons, List.length_nil] at hl
  rw [hsm (by omega), pushHistory_no_evict _ _ (by omega)]

theorem inv_handleJoin {σ σ' : ServerState} {conn : Nat} {m : JMsg} {now : Nat}
    {outs : List Out} (hinv : Inv σ)
    (h : handleJoin σ conn m now = .ok (σ', outs)) : Inv σ' := by
  obtain ⟨hok, hreg, hlen, hsm⟩ := hinv
  unfold handleJoin at h
  cases hjn : joinName m.username with
  | none => rw [hjn] at h; exact absurd h (by simp)
  | some username =>
    rw [hjn] at h
    simp only at h
    by_cases ht : nameTaken σ.clients username = true
    · rw [if_pos ht] at h
      simp only [Except.ok.injEq, Prod.mk.injEq] at h
      obtain ⟨h1, _⟩ := h
      rw [← h1]
      exact ⟨hok, hreg, hlen, hsm⟩
    · rw [if_neg ht] at h
      simp only [Except.ok.injEq, Prod.mk.injEq] at h
      obtain ⟨h1, _⟩ := h
      have htf : nameTaken σ.clients username = false := by
        cases hnt : nameTaken σ.clients username
        · rfl
        · exact absurd hnt ht
      have hv := nameTaken_false htf
      rw [← h1]
      refine ⟨?_, ?_, ?_, ?_⟩
      · exact clientsOk_mapSet conn hok hv
      · intro c hc
        simp only [pushEvent] at hc ⊢
        rcases (memb_insertOnce c conn σ.registered).1 hc with rfl | hc'
        · rw [mapGet_mapSet_self]; rfl
        · by_cases hcc : c = conn
          · subst hcc; rw [mapGet_mapSet_self]; rfl
          · rw [mapGet_mapSet_ne conn c _ _ hcc]
            exact hreg c hc'
      · exact (hist_inv_push _ hlen hsm).1
      · exact (hist_inv_push _ hlen hsm).2

theorem inv_handleChat {σ σ' : ServerState} {conn : Nat} {t : List Char} {now : Nat}
    {outs : List Out} (hinv : Inv σ)
    (h : handleChat σ conn t now = .ok (σ', outs)) : Inv σ' := by
  obtain ⟨hok, hreg, hlen, hsm⟩ := hinv
  unfold handleChat at h
  cases hg : mapGet conn σ.clients with
  | none => rw [hg] at h; exact absurd h (by simp)
  | some username =>
    rw [hg] at h
    simp only at h
    by_cases hsl : (t.take 500).headD ' ' = '/'
    · rw [if_pos hsl] at h
      by_cases h1 : jsToLower ((splitSp (t.take 500)).headD []) = helpLit
      · rw [if_pos h1] at h
        simp only [Except.ok.injEq, Prod.mk.injEq] at h
        rw [← h.1]; exact ⟨hok, hreg, hlen, hsm⟩
      · rw [if_neg h1] at h
        by_cases h2 : jsToLower ((splitSp (t.take 500)).headD []) = usersLit
        · rw [if_pos h2] at h
          simp only [Except.ok.injEq, Prod.mk.injEq] at h
          rw [← h.1]; exact ⟨hok, hreg, hlen, hsm⟩
        · rw [if_neg h2] at h
          by_cases h3 : jsToLower ((splitSp (t.take 500)).headD []) = meLit
          · rw [if_pos h3] at h
            simp only [Except.ok.injEq, Prod.mk.injEq] at h
            rw [← h.1]
            exact ⟨hok, hreg, (hist_inv_push _ hlen hsm).1, (hist_inv_push _ hlen hsm).2⟩
          · rw [if_neg h3] at h
            by_cases h4 : jsToLower ((splitSp (t.take 500)).headD []) = nickLit
            · rw [if_pos h4] at h
              by_cases h5 : (sanitizeName ((splitSp (t.take 500)).getD 1 [])).isEmpty = true
              · rw [if_pos h5] at h
                simp only [Except.ok.injEq, Prod.mk.injEq] at h
                rw [← h.1]; exact ⟨hok, hreg, hlen, hsm⟩
              · rw [if_neg h5] at h
                by_cases h6 : nameTaken σ.clients (sanitizeName ((splitSp (t.take 500)).getD 1 [])) = true
                · rw [if_pos h6] at h
                  simp only [Except.ok.injEq, Prod.mk.injEq] at h
                  rw [← h.1]; exact ⟨hok, hreg, hlen, hsm⟩
                · rw [if_neg h6] at h
                  simp only [Except.ok.injEq, Prod.mk.injEq] at h
                  have htf : nameTaken σ.clients (sanitizeName ((splitSp (t.take 500)).getD 1 [])) = false := by
                    cases hnt : nameTaken σ.clients (sanitizeName ((splitSp (t.take 500)).getD 1 []))
                    · rfl
                    · exact absurd hnt h6
                  have hv := nameTaken_false htf
                  rw [← h.1]
                  refine ⟨clientsOk_mapSet conn hok hv, ?_,
                    (hist_inv_push _ hlen hsm).1, (hist_inv_push _ hlen hsm).2⟩
                  intro c hc
                  simp only [pushEvent] at hc ⊢
                  by_cases hcc : c = conn
                  · subst hcc; rw [mapGet_mapSet_self]; rfl
                  · rw [mapGet_mapSet_ne conn c _ _ hcc]
                    exact hreg c hc
            · rw [if_neg h4] at h
              by_cases h7 : jsToLower ((splitSp (t.take 500)).headD []) = clearLit
              · rw [if_pos h7] at h
                simp only [Except.ok.injEq, Prod.mk.injEq] at h
                rw [← h.1]; exact ⟨hok, hreg, hlen, hsm⟩
              · rw [if_neg h7] at h
                simp only [Except.ok.injEq, Prod.mk.injEq] at h
                rw [← h.1]; exact ⟨hok, hreg, hlen, hsm⟩
    · rw [if_neg hsl] at h
      simp only [Except.ok.injEq, Prod.mk.injEq] at h
      rw [← h.1]
      exact ⟨hok, hreg, (hist_inv_push _ hlen hsm).1, (hist_inv_push _ hlen hsm).2⟩

theorem inv_onMessage {σ σ' : ServerState} {conn : Nat} {fr : Frame} {now : Nat}
    {outs : List Out} (hinv : Inv σ)
    (h : onMessage σ conn fr now = .ok (σ', outs)) : Inv σ' := by
  unfold onMessage at h
  cases fr with
  | malformed =>
    simp only [Except.ok.injEq, Prod.mk.injEq] at h
    rw [← h.1]; exact hinv
  | parsed m =>
    simp only at h
    by_cases hj : jsEqStr m.type joinLit = true
    · rw [if_pos hj] at h
      exact inv_handleJoin hinv h
    · rw [if_neg hj] at h
      by_cases hr : (!memb conn σ.registered) = true
      · rw [if_pos hr] at h
        simp only [Except.ok.injEq, Prod.mk.injEq] at h
        rw [← h.1]; exact hinv
      · rw [if_neg hr] at h
        by_cases hc : (jsEqStr m.type chatLit && truthy m.text) = true
        · rw [if_pos hc] at h
          cases htx : m.text with
          | str s =>
            rw [htx] at h
            simp only at h
            by_cases he : (jsTrim s).isEmpty = true
            · rw [if_pos he] at h
              simp only [Except.ok.injEq, Prod.mk.injEq] at h
              rw [← h.1]; exact hinv
            · rw [if_neg he] at h
              exact inv_handleChat hinv h
          | num n => rw [htx] at h; exact absurd h (by simp)
          | boolean b => rw [htx] at h; exact absurd h (by simp)
          | null => rw [htx] at h; exact absurd h (by simp)
          | undef => rw [htx] at h; exact absurd h (by simp)
        · rw [if_neg hc] at h
          simp only [Except.ok.injEq, Prod.mk.injEq] at h
          rw [← h.1]; exact hinv

theorem inv_onClose {σ σ' : ServerState} {conn : Nat} {now : Nat}
    {outs : List Out} (hinv : Inv σ)
    (h : onClose σ conn now = .ok (σ', outs)) : Inv σ' := by
  obtain ⟨hok, hreg, hlen, hsm⟩ := hinv
  unfold onClose at h
  by_cases hr : memb conn σ.registered = true
  · rw [if_pos hr] at h
    cases hg : mapGet conn σ.clients with
    | none => rw [hg] at h; exact absurd h (by simp)
    | some username =>
      rw [hg] at h
      simp only [Except.ok.injEq, Prod.mk.injEq] at h
      rw [← h.1]
      refine ⟨clientsOk_mapDelete conn hok, ?_,
        (hist_inv_push _ hlen hsm).1, (hist_inv_push _ hlen hsm).2⟩
      intro c hc
      simp only [pushEvent] at hc ⊢
      obtain ⟨hne, hc'⟩ := memb_filter_ne hc
      rw [mapGet_mapDelete_ne conn c _ hne]
      exact hreg c hc'
  · rw [if_neg hr] at h
    simp only [Except.ok.injEq, Prod.mk.injEq] at h
    rw [← h.1]
    exact ⟨hok, hreg, hlen, hsm⟩

theorem inv_step (σ : ServerState) (e : Ev) (hinv : Inv σ) : Inv (step σ e).1 := by
  unfold step
  by_cases hc : σ.crashed = true
  · rw [if_pos hc]; exact hinv
  · rw [if_neg hc]
    cases e with
    | connect conn tok =>
      simp only [handleConnection]
      by_cases hh : memb conn σ.handshaked = true
      · rw [if_pos hh]; exact hinv
      · rw [if_neg hh]
        cases tok with
        | some t =>
          simp only
          by_cases hs : (t.isEmpty || !σ.sessions.contains t) = true
          · rw [if_pos hs]; exact hinv
          · rw [if_neg hs]
            exact ⟨hinv.1, hinv.2.1, hinv.2.2.1, hinv.2.2.2⟩
        | none => simp only; exact hinv
    | message conn fr now =>
      simp only
      by_cases hh : memb conn σ.handshaked = true
      · rw [if_pos hh]
        cases hm : onMessage σ conn fr now with
        | ok r =>
          simp only
          exact inv_onMessage hinv hm
        | error u => simp only; exact hinv
      · rw [if_neg hh]; exact hinv
    | close conn now =>
      simp only
      by_cases hh : memb conn σ.handshaked = true
      · rw [if_pos hh]
        cases hm : onClose σ conn now with
        | ok r =>
          simp only
          exact inv_onClose hinv hm
        | error u => simp only; exact hinv
      · rw [if_neg hh]; exact hinv

theorem inv_run (ss : List (List Char)) (es : List Ev) : Inv (run ss es) := by
  unfold run
  induction es using List.reverseRecOn with
  | nil => exact inv_init ss
  | append_singleton es e ih =>
    rw [List.foldl_append, List.foldl_cons, List.foldl_nil]
    exact inv_step _ e ih

/-! ### Bridge lemmas exposing one dispatch step -/

theorem step_message_eq (σ : ServerState) (conn : Nat) (fr : Frame) (now : Nat)
    (hcr : σ.crashed = false) (hhs : memb conn σ.handshaked = true) :
    step σ (.message conn fr now) =
      match onMessage σ conn fr now with
      | .ok r => r
      | .error _ => ({ σ with crashed := true }, []) := by
  unfold step
  rw [hcr]
  simp only [Bool.false_eq_true, if_false]
  rw [if_pos hhs]

theorem onMessage_join (σ : ServerState) (conn : Nat) (m : JMsg) (now : Nat)
    (hty : m.type = .str joinLit) :
    onMessage σ conn (.parsed m) now = handleJoin σ conn m now := by
  unfold onMessage
  simp only
  rw [if_pos (by rw [hty]; rfl)]

theorem onMessage_chat_str (σ : ServerState) (conn : Nat) (m : JMsg) (now : Nat)
    (s : List Char) (hty : m.type = .str chatLit) (htx : m.text = .str s)
    (hreg : memb conn σ.registered = true) (hne : (jsTrim s).isEmpty = false) :
    onMessage σ conn (.parsed m) now = handleChat σ conn (jsTrim s) now := by
  have hsne : s.isEmpty = false := by
    cases s with
    | nil => simp [jsTrim] at hne
    | cons c cs => rfl
  unfold onMessage
  simp only
  rw [if_neg (by rw [hty]; simp [jsEqStr, chatLit, joinLit])]
  rw [if_neg (by rw [hreg]; simp)]
  rw [if_pos (by rw [hty, htx]; simp [jsEqStr, truthy, hsne])]
  rw [htx]
  simp only
  rw [if_neg (by rw [hne]; simp)]

/-! ### C1 -/

/-- C1: case-insensitive display-name uniqueness is an invariant of the
Session Registry: starting from the empty registry, after any sequence
of reactor events (joins, second join frames on active connections,
`/nick` renames, connection closes, and everything else), no two
distinct registered connections hold displayNames that are equal when
lowercased. -/
theorem c1_name_uniqueness (ss : List (List Char)) (es : List Ev) :
    ((run ss es).clients).Pairwise
      (fun a b => a.1 ≠ b.1 ∧ jsToLower a.2 ≠ jsToLower b.2) :=
  (inv_run ss es).1

/-! ### C2 -/

/-- C2: the History Buffer is bounded FIFO: after every append the
buffer holds at most 200 entries (first conjunct, over every reachable
server state); appending to a buffer holding exactly 200 entries
removes exactly the index-0 entry and keeps the rest in order (second
conjunct); appending up to 200 events from empty keeps them all in
order (third conjunct); after appending a 201st event the buffer is
exactly the 2nd through 201st appended events in order (fourth
conjunct), so the 1st appended event — if it recurs nowhere later in
the sequence — is absent (fifth conjunct). -/
theorem c2_history_bounded_fifo :
    (∀ (ss : List (List Char)) (es : List Ev),
        ((run ss es).chatHistory).length ≤ 200) ∧
    (∀ (h : List HEvent) (ev : HEvent), h.length = 200 →
        pushHistory h ev = h.tail ++ [ev]) ∧
    (∀ (l : List HEvent), l.length ≤ 200 → l.foldl pushHistory [] = l) ∧
    (∀ (l : List HEvent), l.length = 201 → l.foldl pushHistory [] = l.drop 1) ∧
    (∀ (e1 : HEvent) (rest : List HEvent), rest.length = 200 → e1 ∉ rest →
        e1 ∉ (e1 :: rest).foldl pushHistory []) := by
  refine ⟨?_, ?_, ?_, ?_, ?_⟩
  · intro ss es; exact (inv_run ss es).2.2.1
  · exact pushHistory_at_capacity
  · intro l hl
    simpa using foldl_pushHistory_small l [] (by simpa using hl)
  · exact foldl_pushHistory_201
  · intro e1 rest hlen hmem
    rw [foldl_pushHistory_201 (e1 :: rest) (by simp [hlen])]
    simpa using hmem

/-- witness for C2: concrete instances of the hypothesis-bearing
conjuncts, on a buffer of 200 equal events plus one distinct event. -/
theorem c2_history_bounded_fifo_witness :
    (pushHistory (List.replicate 200 (HEvent.system [] 0)) (HEvent.system [] 1)
       = (List.replicate 200 (HEvent.system [] 0)).tail ++ [HEvent.system [] 1]) ∧
    ((List.replicate 150 (HEvent.system [] 0)).foldl pushHistory []
       = List.replicate 150 (HEvent.system [] 0)) ∧
    ((HEvent.system [] 1 :: List.replicate 200 (HEvent.system [] 0)).foldl pushHistory []
       = (HEvent.system [] 1 :: List.replicate 200 (HEvent.system [] 0)).drop 1) ∧
    (HEvent.system [] 1 ∉
       (HEvent.system [] 1 :: List.replicate 200 (HEvent.system [] 0)).foldl pushHistory []) :=
  ⟨c2_history_bounded_fifo.2.1 _ _ (by rw [List.length_replicate]),
   c2_history_bounded_fifo.2.2.1 _ (by rw [List.length_replicate]; omega),
   c2_history_bounded_fifo.2.2.2.1 _ (by rw [List.length_cons, List.length_replicate]),
   c2_history_bounded_fifo.2.2.2.2 _ _ (by rw [List.length_replicate])
     (by intro hm; exact absurd (List.eq_of_mem_replicate hm) (by decide))⟩

/-! ### C7 -/

/-- C7: a connection whose token is absent or unknown gets exactly one
error frame and a close, the state (hence the Session Registry and the
Token Store) is untouched, and no frame it later sends is processed
(first conjunct); the handshake never mutates the token store on any
connect (second conjunct); a token present in the store authorizes a
connection and is left in place, so a second connection presenting the
same token is authorized as well (third conjunct). -/
theorem c7_handshake_auth :
    (∀ (σ : ServerState) (conn : Nat) (tok : Option (List Char)),
      σ.crashed = false → memb conn σ.handshaked = false →
      (tok = none ∨ ∃ t, tok = some t ∧ σ.sessions.contains t = false) →
      step σ (.connect conn tok) =
        (σ, [.sendTo conn (.error authRequiredMsg), .closeConn conn]) ∧
      (∀ (fr : Frame) (now : Nat), step σ (.message conn fr now) = (σ, []))) ∧
    (∀ (σ : ServerState) (conn : Nat) (tok : Option (List Char)),
      (step σ (.connect conn tok)).1.sessions = σ.sessions) ∧
    (∀ (σ : ServerState) (c₁ c₂ : Nat) (t : List Char),
      σ.crashed = false → memb c₁ σ.handshaked = false →
      memb c₂ σ.handshaked = false → c₂ ≠ c₁ → t.isEmpty = false →
      σ.sessions.contains t = true →
      step σ (.connect c₁ (some t)) =
        ({ σ with handshaked := c₁ :: σ.handshaked }, []) ∧
      step ((step σ (.connect c₁ (some t))).1) (.connect c₂ (some t)) =
        ({ (step σ (.connect c₁ (some t))).1 with
            handshaked := c₂ :: (step σ (.connect c₁ (some t))).1.handshaked }, [])) := by
  have haccept : ∀ (σ : ServerState) (c : Nat) (t : List Char),
      σ.crashed = false → memb c σ.handshaked = false → t.isEmpty = false →
      σ.sessions.contains t = true →
      step σ (.connect c (some t)) = ({ σ with handshaked := c :: σ.handshaked }, []) := by
    intro σ c t hcr hhs hte hct
    unfold step
    rw [if_neg (show ¬ σ.crashed = true by rw [hcr]; exact Bool.false_ne_true)]
    simp only [handleConnection]
    rw [if_neg (by rw [hhs]; simp)]
    rw [if_neg (by rw [hte, hct]; simp)]
  refine ⟨?_, ?_, ?_⟩
  · intro σ conn tok hcr hhs htok
    constructor
    · unfold step
      rw [hcr]
      simp only [Bool.false_eq_true, if_false, handleConnection]
      rw [if_neg (by rw [hhs]; simp)]
      rcases htok with rfl | ⟨t, rfl, hct⟩
      · rfl
      · simp only
        rw [if_pos (by rw [hct]; simp)]
    · intro fr now
      unfold step
      rw [hcr]
      simp only [Bool.false_eq_true, if_false]
      rw [if_neg (by rw [hhs]; simp)]
  · intro σ conn tok
    unfold step
    by_cases hcr : σ.crashed = true
    · rw [if_pos hcr]
    · rw [if_neg hcr]
      simp only [handleConnection]
      by_cases hhs : memb conn σ.handshaked = true
      · rw [if_pos hhs]
      · rw [if_neg hhs]
        cases tok with
        | none => rfl
        | some t =>
          simp only
          by_cases hc : (t.isEmpty || !σ.sessions.contains t) = true
          · rw [if_pos hc]
          · rw [if_neg hc]
  · intro σ c₁ c₂ t hcr h1 h2 hne hte hct
    have hs1 := haccept σ c₁ t hcr h1 hte hct
    refine ⟨hs1, ?_⟩
    rw [hs1]
    exact haccept _ c₂ t hcr
      (by simp only [memb]; rw [if_neg (fun e => hne e.symm)]; exact h2) hte hct

/-- witness for C7: on a fresh server whose token store holds `wTok`, a
tokenless connection is rejected with one error and a close and its
frames are ignored, while two different connections may both
authenticate with the same stored token. -/
theorem c7_handshake_auth_witness :
    (step (init [wTok]) (.connect 5 none) =
      (init [wTok], [.sendTo 5 (.error authRequiredMsg), .closeConn 5])) ∧
    (step (init [wTok]) (.message 5 .malformed 0) = (init [wTok], [])) ∧
    (step (init [wTok]) (.connect 1 (some wTok)) =
      ({ init [wTok] with handshaked := 1 :: (init [wTok]).handshaked }, [])) ∧
    (step ((step (init [wTok]) (.connect 1 (some wTok))).1) (.connect 2 (some wTok)) =
      ({ (step (init [wTok]) (.connect 1 (some wTok))).1 with
          handshaked := 2 :: (step (init [wTok]) (.connect 1 (some wTok))).1.handshaked }, [])) :=
  ⟨(c7_handshake_auth.1 (init [wTok]) 5 none rfl rfl (.inl rfl)).1,
   (c7_handshake_auth.1 (init [wTok]) 5 none rfl rfl (.inl rfl)).2 .malformed 0,
   (c7_handshake_auth.2.2 (init [wTok]) 1 2 wTok rfl rfl rfl (by decide) rfl (by decide)).1,
   (c7_handshake_auth.2.2 (init [wTok]) 1 2 wTok rfl rfl rfl (by decide) rfl (by decide)).2⟩

/-! ### C8 -/

/-- C8: an active connection sending a chat frame whose text is the
empty string or whitespace-only leaves the whole server state unchanged
and produces no output at all: no broadcast, no history append, no
registry change, and no reply to the sender. -/
theorem c8_whitespace_chat_noop (σ : ServerState) (conn : Nat) (m : JMsg)
    (now : Nat) (s : List Char)
    (hcr : σ.crashed = false) (hhs : memb conn σ.handshaked = true)
    (hreg : memb conn σ.registered = true)
    (hty : m.type = .str chatLit) (htx : m.text = .str s)
    (htr : jsTrim s = []) :
    step σ (.message conn (.parsed m) now) = (σ, []) := by
  have hmsg : onMessage σ conn (.parsed m) now = .ok (σ, []) := by
    unfold onMessage
    simp only
    rw [if_neg (by rw [hty]; decide)]
    rw [if_neg (by rw [hreg]; simp)]
    by_cases hse : s.isEmpty = true
    · rw [if_neg (by rw [hty, htx]; simp [jsEqStr, truthy, hse])]
    · rw [Bool.not_eq_true] at hse
      rw [if_pos (by rw [hty, htx]; simp [jsEqStr, truthy, hse])]
      rw [htx]
      simp only
      rw [if_pos (by rw [htr]; rfl)]
  rw [step_message_eq σ conn _ now hcr hhs, hmsg]

/-- witness for C8: the registered connection of `wS1` sends a chat
frame of three spaces; the state is unchanged and nothing is sent. -/
theorem c8_whitespace_chat_noop_witness :
    step wS1 (.message 1 (.parsed (wChat "   ".data)) 7) = (wS1, []) :=
  c8_whitespace_chat_noop wS1 1 (wChat "   ".data) 7 "   ".data
    rfl (by decide) (by decide) rfl rfl (by decide)

/-! ### C6 -/

/-- C6 (the claim fails on the code): frames that `JSON.parse` rejects
are indeed dropped silently with the connection left open (first
conjunct), but message handling is not total: on the registered
connection of `wS1`, a chat frame whose `text` field is the number `1`
makes `msg.text.trim()` throw an uncaught TypeError (second conjunct),
and a join frame whose `username` field is the number `5` makes
`.replace` throw likewise (third conjunct); an uncaught exception in a
handler kills the Node process. -/
theorem c6_crash_on_nonstring_field :
    (step wS1 (.message 1 .malformed 2) = (wS1, [])) ∧
    ((step wS1 (.message 1 (.parsed ⟨.str chatLit, .undef, .num 1⟩) 3)).1.crashed = true) ∧
    ((step wS1 (.message 1 (.parsed ⟨.str joinLit, .num 5, .undef⟩) 4)).1.crashed = true) := by
  refine ⟨?_, ?_, ?_⟩ <;> decide

/-! ### Characterizing one join dispatch -/

theorem step_join_accept (σ : ServerState) (conn : Nat) (m : JMsg) (now : Nat)
    (uname : List Char)
    (hcr : σ.crashed = false) (hhs : memb conn σ.handshaked = true)
    (hty : m.type = .str joinLit) (hun : joinName m.username = some uname)
    (ht : nameTaken σ.clients uname = false) :
    step σ (.message conn (.parsed m) now) =
      (pushEvent
        { σ with
          clients := mapSet conn uname σ.clients,
          registered := insertOnce conn σ.registered }
        (HEvent.system (uname ++ joinedSuffix) now),
       [.sendTo conn (.history σ.chatHistory),
        .broadcastOut (.system (uname ++ joinedSuffix) now),
        .broadcastOut (.users (userList (mapSet conn uname σ.clients)))]) := by
  rw [step_message_eq σ conn _ now hcr hhs, onMessage_join σ conn m now hty]
  unfold handleJoin
  rw [hun]
  simp only
  rw [if_neg (by rw [ht]; simp)]

theorem step_join_taken (σ : ServerState) (conn : Nat) (m : JMsg) (now : Nat)
    (uname : List Char)
    (hcr : σ.crashed = false) (hhs : memb conn σ.handshaked = true)
    (hty : m.type = .str joinLit) (hun : joinName m.username = some uname)
    (ht : nameTaken σ.clients uname = true) :
    step σ (.message conn (.parsed m) now) =
      (σ, [.sendTo conn (.error (joinTakenMsg uname))]) := by
  rw [step_message_eq σ conn _ now hcr hhs, onMessage_join σ conn m now hty]
  unfold handleJoin
  rw [hun]
  simp only
  rw [if_pos ht]

/-! ### What the chat handler can do to the registry -/

theorem handleChat_clients_not_nick (σ : ServerState) (conn : Nat) (t : List Char)
    (now : Nat) (hcmd : jsToLower ((splitSp (t.take 500)).headD []) ≠ nickLit)
    {σ' : ServerState} {outs : List Out}
    (h : handleChat σ conn t now = .ok (σ', outs)) :
    σ'.clients = σ.clients := by
  unfold handleChat at h
  cases hg : mapGet conn σ.clients with
  | none => rw [hg] at h; exact absurd h (by simp)
  | some username =>
    rw [hg] at h
    simp only at h
    by_cases hsl : (t.take 500).headD ' ' = '/'
    · rw [if_pos hsl] at h
      by_cases h1 : jsToLower ((splitSp (t.take 500)).headD []) = helpLit
      · rw [if_pos h1] at h
        simp only [Except.ok.injEq, Prod.mk.injEq] at h
        rw [← h.1]
      · rw [if_neg h1] at h
        by_cases h2 : jsToLower ((splitSp (t.take 500)).headD []) = usersLit
        · rw [if_pos h2] at h
          simp only [Except.ok.injEq, Prod.mk.injEq] at h
          rw [← h.1]
        · rw [if_neg h2] at h
          by_cases h3 : jsToLower ((splitSp (t.take 500)).headD []) = meLit
          · rw [if_pos h3] at h
            simp only [Except.ok.injEq, Prod.mk.injEq] at h
            rw [← h.1]; rfl
          · rw [if_neg h3] at h
            rw [if_neg hcmd] at h
            by_cases h7 : jsToLower ((splitSp (t.take 500)).headD []) = clearLit
            · rw [if_pos h7] at h
              simp only [Except.ok.injEq, Prod.mk.injEq] at h
              rw [← h.1]
            · rw [if_neg h7] at h
              simp only [Except.ok.injEq, Prod.mk.injEq] at h
              rw [← h.1]
    · rw [if_neg hsl] at h
      simp only [Except.ok.injEq, Prod.mk.injEq] at h
      rw [← h.1]; rfl

/-- a message that is neither a join frame nor a `/nick` command leaves
the `clients` registry untouched, whatever else it does. -/
theorem step_clients_unchanged (σ : ServerState) (conn : Nat) (m : JMsg) (now : Nat)
    (hty : jsEqStr m.type joinLit = false) (hnk : isNickText m.text = false) :
    (step σ (.message conn (.parsed m) now)).1.clients = σ.clients := by
  unfold step
  by_cases hcr : σ.crashed = true
  · rw [if_pos hcr]
  · rw [if_neg hcr]
    simp only
    by_cases hhs : memb conn σ.handshaked = true
    · rw [if_pos hhs]
      cases hm : onMessage σ conn (.parsed m) now with
      | error u => simp only
      | ok r =>
        simp only
        unfold onMessage at hm
        simp only at hm
        rw [if_neg (by rw [hty]; simp)] at hm
        by_cases hreg : (!memb conn σ.registered) = true
        · rw [if_pos hreg] at hm
          simp only [Except.ok.injEq] at hm
          rw [← hm]
        · rw [if_neg hreg] at hm
          by_cases hc : (jsEqStr m.type chatLit && truthy m.text) = true
          · rw [if_pos hc] at hm
            cases htx : m.text with
            | str s =>
              rw [htx] at hm
              simp only at hm
              by_cases he : (jsTrim s).isEmpty = true
              · rw [if_pos he] at hm
                simp only [Except.ok.injEq] at hm
                rw [← hm]
              · rw [if_neg he] at hm
                have hcmd : jsToLower ((splitSp ((jsTrim s).take 500)).headD []) ≠ nickLit := by
                  rw [htx] at hnk
                  simp only [isNickText] at hnk
                  intro hEq
                  rw [hEq] at hnk
                  simp at hnk
                cases r with
                | mk σ' outs =>
                  exact handleChat_clients_not_nick σ conn (jsTrim s) now hcmd hm
            | num n => rw [htx] at hm; exact absurd hm (by simp)
            | boolean b => rw [htx] at hm; exact absurd hm (by simp)
            | null => rw [htx] at hm; exact absurd hm (by simp)
            | undef => rw [htx] at hm; exact absurd hm (by simp)
          · rw [if_neg hc] at hm
            simp only [Except.ok.injEq] at hm
            rw [← hm]
    · rw [if_neg hhs]

/-! ### C5 -/

/-- C5 counterexample: in `wS1` connection 1 is registered (Active) as
`alice`; it then sends a *join* frame — not a `/nick` — requesting
`bob`, and its Participant record's displayName changes to `bob`.  So a
further join frame on an Active connection does mutate the displayName,
contradicting the claim that only a successful `/nick` can. -/
theorem c5_counterexample :
    (wS1.clients = [(1, "alice".data)]) ∧
    (memb 1 wS1.registered = true) ∧
    ((step wS1 (.message 1 (.parsed (wJoin "bob".data)) 2)).1.clients
      = [(1, "bob".data)]) := by
  refine ⟨?_, ?_, ?_⟩ <;> decide

/-- C5 amended: a Participant record's displayName is mutated by a
successful `/nick` — and also by a further accepted join frame on the
already-Active connection.  Precisely: (1) a message frame that is
neither a join nor a `/nick` command never changes the `clients`
registry; (2) a join frame on an Active connection whose sanitized name
is not case-insensitively taken by anyone replaces that connection's
registry entry in place with the new name; (3) a join frame whose
sanitized name is taken (by anyone, the sender included) is rejected
with an error and changes nothing. -/
theorem c5_displayname_mutation :
    (∀ (σ : ServerState) (conn : Nat) (m : JMsg) (now : Nat),
      jsEqStr m.type joinLit = false → isNickText m.text = false →
      (step σ (.message conn (.parsed m) now)).1.clients = σ.clients) ∧
    (∀ (σ : ServerState) (conn : Nat) (m : JMsg) (now : Nat) (uname : List Char),
      σ.crashed = false → memb conn σ.handshaked = true →
      memb conn σ.registered = true →
      m.type = .str joinLit → joinName m.username = some uname →
      nameTaken σ.clients uname = false →
      (step σ (.message conn (.parsed m) now)).1.clients = mapSet conn uname σ.clients) ∧
    (∀ (σ : ServerState) (conn : Nat) (m : JMsg) (now : Nat) (uname : List Char),
      σ.crashed = false → memb conn σ.handshaked = true →
      m.type = .str joinLit → joinName m.username = some uname →
      nameTaken σ.clients uname = true →
      step σ (.message conn (.parsed m) now) =
        (σ, [.sendTo conn (.error (joinTakenMsg uname))])) := by
  refine ⟨step_clients_unchanged, ?_, step_join_taken⟩
  intro σ conn m now uname hcr hhs _ hty hun ht
  rw [step_join_accept σ conn m now uname hcr hhs hty hun ht]
  rfl

/-- witness for C5 amended: on `wS1` (conn 1 Active as `alice`), a chat
frame does not touch the registry; a join frame for `bob` replaces the
entry in place; a join frame for `ALICE` is rejected as taken with no
state change. -/
theorem c5_displayname_mutation_witness :
    ((step wS1 (.message 1 (.parsed (wChat "hi".data)) 2)).1.clients = wS1.clients) ∧
    ((step wS1 (.message 1 (.parsed (wJoin "bob".data)) 2)).1.clients
       = mapSet 1 "bob".data wS1.clients) ∧
    (step wS1 (.message 1 (.parsed (wJoin "ALICE".data)) 2) =
       (wS1, [.sendTo 1 (.error (joinTakenMsg "ALICE".data))])) :=
  ⟨c5_displayname_mutation.1 wS1 1 (wChat "hi".data) 2 (by decide) (by decide),
   c5_displayname_mutation.2.1 wS1 1 (wJoin "bob".data) 2 "bob".data
     rfl (by decide) (by decide) rfl (by decide) (by decide),
   c5_displayname_mutation.2.2 wS1 1 (wJoin "ALICE".data) 2 "ALICE".data
     rfl (by decide) rfl (by decide) (by decide)⟩

/-! ### C4 -/

theorem nameTaken_true_iff (cs : List (Nat × List Char)) (name : List Char) :
    nameTaken cs name = true ↔ ∃ p ∈ cs, jsToLower p.2 = jsToLower name := by
  unfold nameTaken
  rw [List.any_eq_true]
  constructor
  · rintro ⟨p, hp, hd⟩
    exact ⟨p, hp, of_decide_eq_true hd⟩
  · rintro ⟨p, hp, hd⟩
    exact ⟨p, hp, decide_eq_true hd⟩

/-- C4 counterexample: in `wS1`, connection 1 is the only participant
and is named `alice`; no participant other than the sender holds a name
case-insensitively equal to `alice`, yet `/nick alice` from connection 1
is answered with the taken error (the duplicate scan includes the
sender's own record).  The claim's "in particular" sentence — that a
self-rename to one's current name is not rejected as taken — is false. -/
theorem c4_counterexample :
    (wS1.clients = [(1, "alice".data)]) ∧
    (∀ p ∈ wS1.clients, p.1 ≠ 1 → jsToLower p.2 ≠ jsToLower "alice".data) ∧
    (step wS1 (.message 1 (.parsed (wChat "/nick alice".data)) 3) =
      (wS1, [.sendTo 1 (.error (nickTakenMsg "alice".data))])) := by
  refine ⟨?_, ?_, ?_⟩ <;> decide

/-- C4 amended: for every active sender issuing `/nick` with a
non-empty sanitized new name, the taken error is sent (and no state
mutated) if and only if some participant — the sender itself included —
holds a case-insensitively equal displayName; in particular a
participant renaming itself to its own current name (or a case-variant)
IS rejected as taken.  Otherwise the Participant is renamed in place
and the rename announcement and roster are broadcast. -/
theorem c4_nick_taken_iff (ss : List (List Char)) (es : List Ev) (σ : ServerState)
    (conn : Nat) (m : JMsg) (now : Nat) (s newName : List Char)
    (hσ : σ = run ss es)
    (hcr : σ.crashed = false) (hhs : memb conn σ.handshaked = true)
    (hreg : memb conn σ.registered = true)
    (hty : m.type = .str chatLit) (htx : m.text = .str s)
    (hne : (jsTrim s).isEmpty = false)
    (hsl : ((jsTrim s).take 500).headD ' ' = '/')
    (hcmd : jsToLower ((splitSp ((jsTrim s).take 500)).headD []) = nickLit)
    (hnn : newName = sanitizeName ((splitSp ((jsTrim s).take 500)).getD 1 []))
    (hnne : newName.isEmpty = false) :
    ((∃ p ∈ σ.clients, jsToLower p.2 = jsToLower newName) →
      step σ (.message conn (.parsed m) now) =
        (σ, [.sendTo conn (.error (nickTakenMsg newName))])) ∧
    ((∀ p ∈ σ.clients, jsToLower p.2 ≠ jsToLower newName) →
      ∃ username, mapGet conn σ.clients = some username ∧
        step σ (.message conn (.parsed m) now) =
          (pushEvent { σ with clients := mapSet conn newName σ.clients }
             (HEvent.system (username ++ knownAsMid ++ newName) now),
           [.broadcastOut (.system (username ++ knownAsMid ++ newName) now),
            .broadcastOut (.users (userList (mapSet conn newName σ.clients)))])) := by
  have hsome : (mapGet conn σ.clients).isSome := by
    rw [hσ] at hreg ⊢
    exact (inv_run ss es).2.1 conn hreg
  obtain ⟨username, hg⟩ := Option.isSome_iff_exists.1 hsome
  have hdispatch : ∀ r : Except Unit (ServerState × List Out),
      handleChat σ conn (jsTrim s) now = r →
      step σ (.message conn (.parsed m) now) =
        match r with
        | .ok r' => r'
        | .error _ => ({ σ with crashed := true }, []) := by
    intro r hr
    rw [step_message_eq σ conn _ now hcr hhs,
        onMessage_chat_str σ conn m now s hty htx hreg hne, hr]
  have hbranch : handleChat σ conn (jsTrim s) now =
      (if nameTaken σ.clients newName = true then
        .ok (σ, [.sendTo conn (.error (nickTakenMsg newName))])
      else
        .ok (pushEvent { σ with clients := mapSet conn newName σ.clients }
               (HEvent.system (username ++ knownAsMid ++ newName) now),
             [.broadcastOut (.system (username ++ knownAsMid ++ newName) now),
              .broadcastOut (.users (userList (mapSet conn newName σ.clients)))])) := by
    unfold handleChat
    rw [hg]
    simp only
    rw [if_pos hsl, hcmd]
    rw [if_neg (by decide), if_neg (by decide), if_neg (by decide), if_pos rfl]
    rw [← hnn]
    rw [if_neg (by rw [hnne]; simp)]
  constructor
  · intro hex
    have ht : nameTaken σ.clients newName = true := (nameTaken_true_iff _ _).2 hex
    rw [hdispatch _ (by rw [hbranch, if_pos ht])]
  · intro hall
    refine ⟨username, hg, ?_⟩
    have ht : nameTaken σ.clients newName = false := by
      cases hb : nameTaken σ.clients newName
      · rfl
      · obtain ⟨p, hp, he⟩ := (nameTaken_true_iff _ _).1 hb
        exact absurd he (hall p hp)
    rw [hdispatch _ (by rw [hbranch, if_neg (by rw [ht]; simp)])]

/-- witness for C4 amended: `alice` (the only participant) is rejected
when renaming to the case-variant `ALICE` of her own name, and is
renamed in place when choosing the free name `Bob`. -/
theorem c4_nick_taken_iff_witness :
    (step wS1 (.message 1 (.parsed (wChat "/nick ALICE".data)) 3) =
      (wS1, [.sendTo 1 (.error (nickTakenMsg "ALICE".data))])) ∧
    (step wS1 (.message 1 (.parsed (wChat "/nick Bob".data)) 4) =
      (pushEvent { wS1 with clients := mapSet 1 "Bob".data wS1.clients }
         (HEvent.system ("alice".data ++ knownAsMid ++ "Bob".data) 4),
       [.broadcastOut (.system ("alice".data ++ knownAsMid ++ "Bob".data) 4),
        .broadcastOut (.users (userList (mapSet 1 "Bob".data wS1.clients)))])) := by
  constructor
  · exact (c4_nick_taken_iff [wTok] wES wS1 1 (wChat "/nick ALICE".data) 3
      "/nick ALICE".data "ALICE".data rfl rfl (by decide) (by decide) rfl rfl
      (by decide) (by decide) (by decide) (by decide) (by decide)).1
      ⟨(1, "alice".data), by decide, by decide⟩
  · obtain ⟨u, hg, heq⟩ := (c4_nick_taken_iff [wTok] wES wS1 1
      (wChat "/nick Bob".data) 4 "/nick Bob".data "Bob".data rfl rfl (by decide)
      (by decide) rfl rfl (by decide) (by decide) (by decide) (by decide)
      (by decide)).2 (by decide)
    have hu : u = "alice".data := by
      have hgv : mapGet 1 wS1.clients = some "alice".data := by decide
      rw [hgv] at hg
      exact (Option.some.inj hg).symm
    rw [hu] at heq
    exact heq

/-! ### C3 -/

/-- C3: a connection that successfully joins is sent, first, a single
history frame holding exactly the pre-join history buffer; while at
most 200 events have ever been appended that buffer is exactly all
appended events in order; the joiner's own join announcement is
appended only after the history frame is built (third conjunct), and is
not contained in the replay (fourth conjunct, under the freshness of
the announcement's timestamp). -/
theorem c3_history_replay (ss : List (List Char)) (es : List Ev) (σ : ServerState)
    (conn : Nat) (m : JMsg) (now : Nat) (uname : List Char)
    (hσ : σ = run ss es)
    (hcr : σ.crashed = false) (hhs : memb conn σ.handshaked = true)
    (hty : m.type = .str joinLit) (hun : joinName m.username = some uname)
    (ht : nameTaken σ.clients uname = false) :
    ((step σ (.message conn (.parsed m) now)).2 =
      [.sendTo conn (.history σ.chatHistory),
       .broadcastOut (.system (uname ++ joinedSuffix) now),
       .broadcastOut (.users (userList (mapSet conn uname σ.clients)))]) ∧
    (σ.logAll.length ≤ 200 → σ.chatHistory = σ.logAll) ∧
    ((step σ (.message conn (.parsed m) now)).1.chatHistory =
       pushHistory σ.chatHistory (HEvent.system (uname ++ joinedSuffix) now)) ∧
    ((∀ ev ∈ σ.chatHistory, ev.time ≠ now) →
       HEvent.system (uname ++ joinedSuffix) now ∉ σ.chatHistory) := by
  refine ⟨?_, ?_, ?_, ?_⟩
  · rw [step_join_accept σ conn m now uname hcr hhs hty hun ht]
  · intro hlen
    rw [hσ] at hlen ⊢
    exact (inv_run ss es).2.2.2 hlen
  · rw [step_join_accept σ conn m now uname hcr hhs hty hun ht]
    rfl
  · intro hfresh hmem
    exact hfresh _ hmem rfl

/-- witness for C3: in `wS3` (two appended events, a second handshaked
connection), connection 2 joins as `bob` and receives the full
two-event history — which equals everything ever appended and does not
contain bob's own announcement — before that announcement is appended. -/
theorem c3_history_replay_witness :
    ((step wS3 (.message 2 (.parsed (wJoin "bob".data)) 9)).2 =
      [.sendTo 2 (.history wS3.chatHistory),
       .broadcastOut (.system ("bob".data ++ joinedSuffix) 9),
       .broadcastOut (.users (userList (mapSet 2 "bob".data wS3.clients)))]) ∧
    (wS3.chatHistory = wS3.logAll) ∧
    ((step wS3 (.message 2 (.parsed (wJoin "bob".data)) 9)).1.chatHistory =
       pushHistory wS3.chatHistory (HEvent.system ("bob".data ++ joinedSuffix) 9)) ∧
    (HEvent.system ("bob".data ++ joinedSuffix) 9 ∉ wS3.chatHistory) := by
  have h := c3_history_replay [wTok] wES3 wS3 2 (wJoin "bob".data) 9 "bob".data
    rfl rfl (by decide) rfl (by decide) (by decide)
  exact ⟨h.1, h.2.1 (by decide), h.2.2.1, h.2.2.2 (by decide)⟩

/-! ### Tokenization lemmas for the command dispatcher -/

theorem splitSp_ne_nil (l : List Char) : splitSp l ≠ [] := by
  cases l with
  | nil => simp [splitSp]
  | cons c cs =>
    unfold splitSp
    by_cases h : c = ' '
    · rw [if_pos h]; simp
    · rw [if_neg h]
      cases splitSp cs <;> simp

theorem splitSp_headD (l : List Char) : (splitSp l).headD [] = spaceTok l := by
  induction l with
  | nil => rfl
  | cons c cs ih =>
    unfold splitSp spaceTok
    by_cases h : c = ' '
    · rw [if_pos h, if_pos h]; rfl
    · rw [if_neg h, if_neg h]
      cases hs : splitSp cs with
      | nil => exact absurd hs (splitSp_ne_nil cs)
      | cons t ts =>
        rw [hs] at ih
        simp only [List.headD_cons] at ih ⊢
        rw [ih]

theorem spaceTok_take (l : List Char) : ∀ n : Nat,
    spaceTok (l.take n) = (spaceTok l).take n := by
  induction l with
  | nil => intro n; simp [spaceTok]
  | cons c cs ih =>
    intro n
    cases n with
    | zero => simp [spaceTok]
    | succ k =>
      rw [List.take_succ_cons]
      unfold spaceTok
      by_cases h : c = ' '
      · rw [if_pos h, if_pos h]
        simp
      · rw [if_neg h, if_neg h, List.take_succ_cons, ih k]

theorem cmdList_no_ws : ∀ cmd ∈ cmdList, ∀ c ∈ cmd, isWS c = false := by decide

theorem cmdList_short : ∀ cmd ∈ cmdList, cmd.length ≤ 6 := by decide

theorem jsLowerChar_of_isWS (c : Char) (h : isWS c = true) : jsLowerChar c = c := by
  unfold isWS at h
  simp only [Bool.or_eq_true, decide_eq_true_eq] at h
  unfold jsLowerChar
  rw [if_neg ?_]
  rintro ⟨h1, h2⟩
  omega

theorem wsFirstTok_eq_spaceTok (l : List Char) (h : ∀ c ∈ spaceTok l, isWS c = false) :
    wsFirstTok l = spaceTok l := by
  induction l with
  | nil => rfl
  | cons c cs ih =>
    by_cases hc : c = ' '
    · have hsp : spaceTok (c :: cs) = [] := by
        show (if c = ' ' then [] else c :: spaceTok cs) = []
        rw [if_pos hc]
      rw [hsp]
      show List.takeWhile (fun x => !isWS x) (c :: cs) = []
      simp only [List.takeWhile_cons]
      rw [if_neg (by rw [hc]; decide)]
    · have hsp : spaceTok (c :: cs) = c :: spaceTok cs := by
        show (if c = ' ' then [] else c :: spaceTok cs) = c :: spaceTok cs
        rw [if_neg hc]
      rw [hsp] at h
      have hcw : isWS c = false := h c (List.mem_cons_self _ _)
      rw [hsp]
      show List.takeWhile (fun x => !isWS x) (c :: cs) = c :: spaceTok cs
      simp only [List.takeWhile_cons]
      rw [if_pos (by rw [hcw]; rfl)]
      have ihr := ih (fun x hx => h x (List.mem_cons_of_mem _ hx))
      show c :: List.takeWhile (fun x => !isWS x) cs = c :: spaceTok cs
      rw [show List.takeWhile (fun x => !isWS x) cs = wsFirstTok cs from rfl, ihr]

theorem lower_tok_no_ws {tok cmd : List Char} (hmem : cmd ∈ cmdList)
    (hl : jsToLower tok = cmd) : ∀ c ∈ tok, isWS c = false := by
  intro c hc
  cases hvalue : isWS c
  · rfl
  · exfalso
    have hcm : jsLowerChar c ∈ cmd := by
      rw [← hl]
      exact List.mem_map_of_mem _ hc
    rw [jsLowerChar_of_isWS c hvalue] at hcm
    have hflat := cmdList_no_ws cmd hmem c hcm
    rw [hvalue] at hflat
    exact Bool.noConfusion hflat

/-- if the first whitespace-separated token of the trimmed text is not
a recognized command (case-insensitively), then neither is the
dispatcher's own token: the lowercased first space-separated part of
the text sliced to 500 characters. -/
theorem cmd_bridge (t : List Char) (h : jsToLower (wsFirstTok t) ∉ cmdList) :
    jsToLower ((splitSp (t.take 500)).headD []) ∉ cmdList := by
  intro hmem
  apply h
  rw [splitSp_headD, spaceTok_take t 500] at hmem
  have hlen6 : ((spaceTok t).take 500).length ≤ 6 := by
    have hsh := cmdList_short _ hmem
    rw [jsToLower, List.length_map] at hsh
    exact hsh
  have htk : (spaceTok t).take 500 = spaceTok t := by
    apply List.take_of_length_le
    rw [List.length_take] at hlen6
    omega
  rw [htk] at hmem
  have hnws : ∀ c ∈ spaceTok t, isWS c = false := lower_tok_no_ws hmem rfl
  rw [wsFirstTok_eq_spaceTok t hnws]
  exact hmem

theorem no_chat_single (c : Nat) (f : OutFrame) (hf : f.isChat = false) :
    ∀ o ∈ [Out.sendTo c f], ∀ g, Out.frameOf o = some g → g.isChat = false := by
  intro o ho g hg
  simp only [List.mem_singleton] at ho
  subst ho
  simp only [Out.frameOf, Option.some.injEq] at hg
  rw [← hg]
  exact hf

theorem no_chat_bsingle (f : OutFrame) (hf : f.isChat = false) :
    ∀ o ∈ [Out.broadcastOut f], ∀ g, Out.frameOf o = some g → g.isChat = false := by
  intro o ho g hg
  simp only [List.mem_singleton] at ho
  subst ho
  simp only [Out.frameOf, Option.some.injEq] at hg
  rw [← hg]
  exact hf

theorem no_chat_bpair (f₁ f₂ : OutFrame) (h₁ : f₁.isChat = false) (h₂ : f₂.isChat = false) :
    ∀ o ∈ [Out.broadcastOut f₁, Out.broadcastOut f₂],
      ∀ g, Out.frameOf o = some g → g.isChat = false := by
  intro o ho g hg
  rcases List.mem_cons.1 ho with rfl | ho
  · simp only [Out.frameOf, Option.some.injEq] at hg
    rw [← hg]; exact h₁
  · simp only [List.mem_singleton] at ho
    subst ho
    simp only [Out.frameOf, Option.some.injEq] at hg
    rw [← hg]; exact h₂

/-! ### C9 -/

/-- C9: an Active connection's chat frame whose trimmed text starts
with a slash is never handled as plain chat: no chat-typed frame is
sent or broadcast (first conjunct) and nothing chat-typed is appended
to the history (second conjunct); and when the first
whitespace-separated token of the trimmed text is, case-insensitively,
none of the five commands, the output is exactly one error frame to the
sender naming the attempted (lowercased) command (third conjunct). -/
theorem c9_command_dispatch (ss : List (List Char)) (es : List Ev) (σ : ServerState)
    (conn : Nat) (m : JMsg) (now : Nat) (s : List Char)
    (hσ : σ = run ss es)
    (hcr : σ.crashed = false) (hhs : memb conn σ.handshaked = true)
    (hreg : memb conn σ.registered = true)
    (hty : m.type = .str chatLit) (htx : m.text = .str s)
    (hne : (jsTrim s).isEmpty = false)
    (hsl : (jsTrim s).headD ' ' = '/') :
    (∀ o ∈ (step σ (.message conn (.parsed m) now)).2,
       ∀ g, Out.frameOf o = some g → g.isChat = false) ∧
    ((step σ (.message conn (.parsed m) now)).1.logAll = σ.logAll ∨
      ∃ ev : HEvent, ev.isChat = false ∧
        (step σ (.message conn (.parsed m) now)).1.logAll = σ.logAll ++ [ev]) ∧
    (jsToLower (wsFirstTok (jsTrim s)) ∉ cmdList →
      (step σ (.message conn (.parsed m) now)).2 =
        [.sendTo conn (.error (unknownCmdMsg
          (jsToLower ((splitSp ((jsTrim s).take 500)).headD []))))]) := by
  have hsome : (mapGet conn σ.clients).isSome := by
    rw [hσ] at hreg ⊢
    exact (inv_run ss es).2.1 conn hreg
  obtain ⟨username, hg⟩ := Option.isSome_iff_exists.1 hsome
  have hsl' : ((jsTrim s).take 500).headD ' ' = '/' := by
    cases hts : jsTrim s with
    | nil => rw [hts] at hne; exact absurd hne (by decide)
    | cons c cs =>
      rw [hts] at hsl
      exact hsl
  have hstep : step σ (.message conn (.parsed m) now) =
      match handleChat σ conn (jsTrim s) now with
      | .ok r => r
      | .error _ => ({ σ with crashed := true }, []) := by
    rw [step_message_eq σ conn _ now hcr hhs,
        onMessage_chat_str σ conn m now s hty htx hreg hne]
  have hmem_of : ∀ cmd : List Char,
      jsToLower ((splitSp ((jsTrim s).take 500)).headD []) = cmd → cmd ∈ cmdList →
      jsToLower (wsFirstTok (jsTrim s)) ∉ cmdList → False := by
    intro cmd hcmd hmem hno
    exact absurd (hcmd ▸ hmem) (cmd_bridge _ hno)
  by_cases h1 : jsToLower ((splitSp ((jsTrim s).take 500)).headD []) = helpLit
  · have hres : step σ (.message conn (.parsed m) now) =
        (σ, [.sendTo conn (.system helpText now)]) := by
      rw [hstep]
      have hh : handleChat σ conn (jsTrim s) now =
          .ok (σ, [.sendTo conn (.system helpText now)]) := by
        unfold handleChat
        rw [hg]
        simp only
        rw [if_pos hsl', if_pos h1]
      rw [hh]
    refine ⟨?_, ?_, ?_⟩
    · rw [hres]; exact no_chat_single conn _ rfl
    · rw [hres]; exact .inl rfl
    · intro hno; exact absurd (hmem_of _ h1 (by decide) hno) not_false
  · by_cases h2 : jsToLower ((splitSp ((jsTrim s).take 500)).headD []) = usersLit
    · have hres : step σ (.message conn (.parsed m) now) =
          (σ, [.sendTo conn (.system (usersReply σ.clients) now)]) := by
        rw [hstep]
        have hh : handleChat σ conn (jsTrim s) now =
            .ok (σ, [.sendTo conn (.system (usersReply σ.clients) now)]) := by
          unfold handleChat
          rw [hg]
          simp only
          rw [if_pos hsl', if_neg h1, if_pos h2]
        rw [hh]
      refine ⟨?_, ?_, ?_⟩
      · rw [hres]; exact no_chat_single conn _ rfl
      · rw [hres]; exact .inl rfl
      · intro hno; exact absurd (hmem_of _ h2 (by decide) hno) not_false
    · by_cases h3 : jsToLower ((splitSp ((jsTrim s).take 500)).headD []) = meLit
      · obtain ⟨act, hact⟩ : ∃ a, (let j := joinSp ((splitSp ((jsTrim s).take 500)).drop 1);
            if j.isEmpty then "...".data else j) = a := ⟨_, rfl⟩
        have hres : step σ (.message conn (.parsed m) now) =
            (pushEvent σ (HEvent.action username (username ++ ' ' :: act) now),
             [.broadcastOut (.action username (username ++ ' ' :: act) now)]) := by
          rw [hstep]
          have hh : handleChat σ conn (jsTrim s) now =
              .ok (pushEvent σ (HEvent.action username (username ++ ' ' :: act) now),
                   [.broadcastOut (.action username (username ++ ' ' :: act) now)]) := by
            unfold handleChat
            rw [hg]
            simp only
            rw [if_pos hsl', if_neg h1, if_neg h2, if_pos h3, hact]
          rw [hh]
        refine ⟨?_, ?_, ?_⟩
        · rw [hres]; exact no_chat_bsingle _ rfl
        · rw [hres]
          refine .inr ⟨_, ?_, rfl⟩
          rfl
        · intro hno; exact absurd (hmem_of _ h3 (by decide) hno) not_false
      · by_cases h4 : jsToLower ((splitSp ((jsTrim s).take 500)).headD []) = nickLit
        · obtain ⟨nn, hnn⟩ : ∃ nn,
              sanitizeName ((splitSp ((jsTrim s).take 500)).getD 1 []) = nn := ⟨_, rfl⟩
          by_cases h5 : nn.isEmpty = true
          · have hres : step σ (.message conn (.parsed m) now) =
                (σ, [.sendTo conn (.error nickUsageMsg)]) := by
              rw [hstep]
              have hh : handleChat σ conn (jsTrim s) now =
                  .ok (σ, [.sendTo conn (.error nickUsageMsg)]) := by
                unfold handleChat
                rw [hg]
                simp only
                rw [if_pos hsl', if_neg h1, if_neg h2, if_neg h3, if_pos h4, hnn,
                    if_pos h5]
              rw [hh]
            refine ⟨?_, ?_, ?_⟩
            · rw [hres]; exact no_chat_single conn _ rfl
            · rw [hres]; exact .inl rfl
            · intro hno; exact absurd (hmem_of _ h4 (by decide) hno) not_false
          · by_cases h6 : nameTaken σ.clients nn = true
            · have hres : step σ (.message conn (.parsed m) now) =
                  (σ, [.sendTo conn (.error (nickTakenMsg nn))]) := by
                rw [hstep]
                have hh : handleChat σ conn (jsTrim s) now =
                    .ok (σ, [.sendTo conn (.error (nickTakenMsg nn))]) := by
                  unfold handleChat
                  rw [hg]
                  simp only
                  rw [if_pos hsl', if_neg h1, if_neg h2, if_neg h3, if_pos h4, hnn,
                      if_neg h5, if_pos h6]
                rw [hh]
              refine ⟨?_, ?_, ?_⟩
              · rw [hres]; exact no_chat_single conn _ rfl
              · rw [hres]; exact .inl rfl
              · intro hno; exact absurd (hmem_of _ h4 (by decide) hno) not_false
            · have hres : step σ (.message conn (.parsed m) now) =
                  (pushEvent { σ with clients := mapSet conn nn σ.clients }
                     (HEvent.system (username ++ knownAsMid ++ nn) now),
                   [.broadcastOut (.system (username ++ knownAsMid ++ nn) now),
                    .broadcastOut (.users (userList (mapSet conn nn σ.clients)))]) := by
                rw [hstep]
                have hh : handleChat σ conn (jsTrim s) now =
                    .ok (pushEvent { σ with clients := mapSet conn nn σ.clients }
                           (HEvent.system (username ++ knownAsMid ++ nn) now),
                         [.broadcastOut (.system (username ++ knownAsMid ++ nn) now),
                          .broadcastOut (.users (userList (mapSet conn nn σ.clients)))]) := by
                  unfold handleChat
                  rw [hg]
                  simp only
                  rw [if_pos hsl', if_neg h1, if_neg h2, if_neg h3, if_pos h4, hnn,
                      if_neg h5, if_neg h6]
                rw [hh]
              refine ⟨?_, ?_, ?_⟩
              · rw [hres]; exact no_chat_bpair _ _ rfl rfl
              · rw [hres]
                refine .inr ⟨_, ?_, rfl⟩
                rfl
              · intro hno; exact absurd (hmem_of _ h4 (by decide) hno) not_false
        · by_cases h7 : jsToLower ((splitSp ((jsTrim s).take 500)).headD []) = clearLit
          · have hres : step σ (.message conn (.parsed m) now) =
                (σ, [.sendTo conn .clear]) := by
              rw [hstep]
              have hh : handleChat σ conn (jsTrim s) now =
                  .ok (σ, [.sendTo conn .clear]) := by
                unfold handleChat
                rw [hg]
                simp only
                rw [if_pos hsl', if_neg h1, if_neg h2, if_neg h3, if_neg h4, if_pos h7]
              rw [hh]
            refine ⟨?_, ?_, ?_⟩
            · rw [hres]; exact no_chat_single conn _ rfl
            · rw [hres]; exact .inl rfl
            · intro hno; exact absurd (hmem_of _ h7 (by decide) hno) not_false
          · have hres : step σ (.message conn (.parsed m) now) =
                (σ, [.sendTo conn (.error (unknownCmdMsg
                  (jsToLower ((splitSp ((jsTrim s).take 500)).headD []))))]) := by
              rw [hstep]
              have hh : handleChat σ conn (jsTrim s) now =
                  .ok (σ, [.sendTo conn (.error (unknownCmdMsg
                    (jsToLower ((splitSp ((jsTrim s).take 500)).headD []))))]) := by
                unfold handleChat
                rw [hg]
                simp only
                rw [if_pos hsl', if_neg h1, if_neg h2, if_neg h3, if_neg h4, if_neg h7]
              rw [hh]
            refine ⟨?_, ?_, ?_⟩
            · rw [hres]; exact no_chat_single conn _ rfl
            · rw [hres]; exact .inl rfl
            · intro hno; rw [hres]

/-- witness for C9: `alice` sends `/frobnicate now`; the only output is
the unknown-command error to her, naming `/frobnicate` (lowercased,
space-split) as the attempted command. -/
theorem c9_command_dispatch_witness :
    (step wS1 (.message 1 (.parsed (wChat "/frobnicate now".data)) 5)).2 =
      [.sendTo 1 (.error (unknownCmdMsg
        (jsToLower ((splitSp ((jsTrim "/frobnicate now".data).take 500)).headD []))))] :=
  (c9_command_dispatch [wTok] wES wS1 1 (wChat "/frobnicate now".data) 5
    "/frobnicate now".data rfl rfl (by decide) (by decide) rfl rfl (by decide)
    (by decide)).2.2 (by decide)

/-! ### C10 -/

/-- characterization of a plain (non-slash) chat dispatch. -/
theorem step_plain_chat (σ : ServerState) (conn : Nat) (m : JMsg) (now : Nat)
    (s username : List Char)
    (hcr : σ.crashed = false) (hhs : memb conn σ.handshaked = true)
    (hreg : memb conn σ.registered = true)
    (hty : m.type = .str chatLit) (htx : m.text = .str s)
    (hne : (jsTrim s).isEmpty = false)
    (hsl : ¬ ((jsTrim s).take 500).headD ' ' = '/')
    (hg : mapGet conn σ.clients = some username) :
    step σ (.message conn (.parsed m) now) =
      (pushEvent σ (HEvent.chat username ((jsTrim s).take 500) now),
       [.broadcastOut (.chat username ((jsTrim s).take 500) now)]) := by
  rw [step_message_eq σ conn _ now hcr hhs,
      onMessage_chat_str σ conn m now s hty htx hreg hne]
  have hh : handleChat σ conn (jsTrim s) now =
      .ok (pushEvent σ (HEvent.chat username ((jsTrim s).take 500) now),
           [.broadcastOut (.chat username ((jsTrim s).take 500) now)]) := by
    unfold handleChat
    rw [hg]
    simp only
    rw [if_neg hsl]
  rw [hh]

/-- every history append performed by one dispatch adds at most one
event, and a chat-typed one only with a text already sliced to 500. -/
theorem step_logAll_cases (σ : ServerState) (e : Ev) :
    (step σ e).1.logAll = σ.logAll ∨
    ∃ ev : HEvent, (step σ e).1.logAll = σ.logAll ++ [ev] ∧
      (ev.isChat = false ∨ ∃ (u t : List Char) (n : Nat), ev = HEvent.chat u (t.take 500) n) := by
  unfold step
  by_cases hc : σ.crashed = true
  · rw [if_pos hc]; exact .inl rfl
  · rw [if_neg hc]
    cases e with
    | connect conn tok =>
      simp only [handleConnection]
      by_cases hh : memb conn σ.handshaked = true
      · rw [if_pos hh]; exact .inl rfl
      · rw [if_neg hh]
        cases tok with
        | some t =>
          simp only
          by_cases hs : (t.isEmpty || !σ.sessions.contains t) = true
          · rw [if_pos hs]; exact .inl rfl
          · rw [if_neg hs]; exact .inl rfl
        | none => exact .inl rfl
    | message conn fr now =>
      simp only
      by_cases hh : memb conn σ.handshaked = true
      · rw [if_pos hh]
        cases hm : onMessage σ conn fr now with
        | error u => exact .inl rfl
        | ok r =>
          simp only
          unfold onMessage at hm
          cases fr with
          | malformed =>
            simp only [Except.ok.injEq] at hm
            rw [← hm]; exact .inl rfl
          | parsed m =>
            simp only at hm
            by_cases hj : jsEqStr m.type joinLit = true
            · rw [if_pos hj] at hm
              unfold handleJoin at hm
              cases hjn : joinName m.username with
              | none => rw [hjn] at hm; exact absurd hm (by simp)
              | some username =>
                rw [hjn] at hm
                simp only at hm
                by_cases ht : nameTaken σ.clients username = true
                · rw [if_pos ht] at hm
                  simp only [Except.ok.injEq] at hm
                  rw [← hm]; exact .inl rfl
                · rw [if_neg ht] at hm
                  simp only [Except.ok.injEq] at hm
                  rw [← hm]
                  exact .inr ⟨_, rfl, .inl rfl⟩
            · rw [if_neg hj] at hm
              by_cases hr : (!memb conn σ.registered) = true
              · rw [if_pos hr] at hm
                simp only [Except.ok.injEq] at hm
                rw [← hm]; exact .inl rfl
              · rw [if_neg hr] at hm
                by_cases hcb : (jsEqStr m.type chatLit && truthy m.text) = true
                · rw [if_pos hcb] at hm
                  cases htx : m.text with
                  | str s =>
                    rw [htx] at hm
                    simp only at hm
                    by_cases he : (jsTrim s).isEmpty = true
                    · rw [if_pos he] at hm
                      simp only [Except.ok.injEq] at hm
                      rw [← hm]; exact .inl rfl
                    · rw [if_neg he] at hm
                      unfold handleChat at hm
                      cases hg : mapGet conn σ.clients with
                      | none => rw [hg] at hm; exact absurd hm (by simp)
                      | some username =>
                        rw [hg] at hm
                        simp only at hm
                        by_cases hsl : ((jsTrim s).take 500).headD ' ' = '/'
                        · rw [if_pos hsl] at hm
                          by_cases h1 : jsToLower ((splitSp ((jsTrim s).take 500)).headD []) = helpLit
                          · rw [if_pos h1] at hm
                            simp only [Except.ok.injEq] at hm
                            rw [← hm]; exact .inl rfl
                          · rw [if_neg h1] at hm
                            by_cases h2 : jsToLower ((splitSp ((jsTrim s).take 500)).headD []) = usersLit
                            · rw [if_pos h2] at hm
                              simp only [Except.ok.injEq] at hm
                              rw [← hm]; exact .inl rfl
                            · rw [if_neg h2] at hm
                              by_cases h3 : jsToLower ((splitSp ((jsTrim s).take 500)).headD []) = meLit
                              · rw [if_pos h3] at hm
                                simp only [Except.ok.injEq] at hm
                                rw [← hm]
                                exact .inr ⟨_, rfl, .inl rfl⟩
                              · rw [if_neg h3] at hm
                                by_cases h4 : jsToLower ((splitSp ((jsTrim s).take 500)).headD []) = nickLit
                                · rw [if_pos h4] at hm
                                  by_cases h5 : (sanitizeName ((splitSp ((jsTrim s).take 500)).getD 1 [])).isEmpty = true
                                  · rw [if_pos h5] at hm
                                    simp only [Except.ok.injEq] at hm
                                    rw [← hm]; exact .inl rfl
                                  · rw [if_neg h5] at hm
                                    by_cases h6 : nameTaken σ.clients (sanitizeName ((splitSp ((jsTrim s).take 500)).getD 1 [])) = true
                                    · rw [if_pos h6] at hm
                                      simp only [Except.ok.injEq] at hm
                                      rw [← hm]; exact .inl rfl
                                    · rw [if_neg h6] at hm
                                      simp only [Except.ok.injEq] at hm
                                      rw [← hm]
                                      exact .inr ⟨_, rfl, .inl rfl⟩
                                · rw [if_neg h4] at hm
                                  by_cases h7 : jsToLower ((splitSp ((jsTrim s).take 500)).headD []) = clearLit
                                  · rw [if_pos h7] at hm
                                    simp only [Except.ok.injEq] at hm
                                    rw [← hm]; exact .inl rfl
                                  · rw [if_neg h7] at hm
                                    simp only [Except.ok.injEq] at hm
                                    rw [← hm]; exact .inl rfl
                        · rw [if_neg hsl] at hm
                          simp only [Except.ok.injEq] at hm
                          rw [← hm]
                          exact .inr ⟨_, rfl, .inr ⟨username, jsTrim s, now, rfl⟩⟩
                  | num n => rw [htx] at hm; exact absurd hm (by simp)
                  | boolean b => rw [htx] at hm; exact absurd hm (by simp)
                  | null => rw [htx] at hm; exact absurd hm (by simp)
                  | undef => rw [htx] at hm; exact absurd hm (by simp)
                · rw [if_neg hcb] at hm
                  simp only [Except.ok.injEq] at hm
                  rw [← hm]; exact .inl rfl
      · rw [if_neg hh]; exact .inl rfl
    | close conn now =>
      simp only
      by_cases hh : memb conn σ.handshaked = true
      · rw [if_pos hh]
        cases hm : onClose σ conn now with
        | error u => exact .inl rfl
        | ok r =>
          simp only
          unfold onClose at hm
          by_cases hr : memb conn σ.registered = true
          · rw [if_pos hr] at hm
            cases hg : mapGet conn σ.clients with
            | none => rw [hg] at hm; exact absurd hm (by simp)
            | some username =>
              rw [hg] at hm
              simp only [Except.ok.injEq] at hm
              rw [← hm]
              exact .inr ⟨_, rfl, .inl rfl⟩
          · rw [if_neg hr] at hm
            simp only [Except.ok.injEq] at hm
            rw [← hm]; exact .inl rfl
      · rw [if_neg hh]; exact .inl rfl

/-- no chat event with a text longer than 500 characters is ever in the
ghost append log of a reachable state. -/
theorem chat_text_bound_run (ss : List (List Char)) (es : List Ev) :
    ∀ u t n, HEvent.chat u t n ∈ (run ss es).logAll → t.length ≤ 500 := by
  unfold run
  induction es using List.reverseRecOn with
  | nil => intro u t n h; exact absurd h (by simp [init])
  | append_singleton es e ih =>
    rw [List.foldl_append, List.foldl_cons, List.foldl_nil]
    intro u t n h
    rcases step_logAll_cases (List.foldl (fun σ e => (step σ e).1) (init ss) es) e with
      hcase | ⟨ev, hcase, hev⟩
    · rw [hcase] at h
      exact ih u t n h
    · rw [hcase] at h
      rcases List.mem_append.1 h with h | h
      · exact ih u t n h
      · simp only [List.mem_singleton] at h
        rcases hev with hev | ⟨u', t', n', hev⟩
        · rw [← h] at hev
          exact absurd hev (by simp [HEvent.isChat])
        · rw [hev] at h
          injection h with h1 h2 h3
          rw [h2, List.length_take]
          omega

set_option maxRecDepth 100000 in
/-- C10 counterexample: `alice` sends a chat frame whose trimmed text
is 501 characters long and starts with a slash.  The claim as stated
promises no surfaced error and an append of the first 500 characters;
instead the sliced text enters the command dispatcher, an
unknown-command error IS sent to the sender, and nothing at all is
appended to the history. -/
theorem c10_counterexample :
    ((jsTrim wLongSlash).length = 501) ∧
    ((step wS1 (.message 1 (.parsed (wChat wLongSlash)) 5)).2 =
      [.sendTo 1 (.error (unknownCmdMsg ('/' :: List.replicate 499 'a')))]) ∧
    ((step wS1 (.message 1 (.parsed (wChat wLongSlash)) 5)).1.logAll = wS1.logAll) := by
  refine ⟨?_, ?_, ?_⟩ <;> decide

/-- C10 amended: for every active connection sending a chat frame whose
trimmed text is longer than 500 characters *and does not start with a
slash*, the message is not rejected and no error is surfaced: exactly
the first 500 characters of the trimmed text are appended and broadcast
as the chat event's text (first conjunct; the appended slice has length
exactly 500 by the second conjunct); and every chat event ever appended
in any reachable state has text of length at most 500 (third
conjunct). -/
theorem c10_long_chat_truncated (ss : List (List Char)) (es : List Ev) (σ : ServerState)
    (conn : Nat) (m : JMsg) (now : Nat) (s : List Char)
    (hσ : σ = run ss es)
    (hcr : σ.crashed = false) (hhs : memb conn σ.handshaked = true)
    (hreg : memb conn σ.registered = true)
    (hty : m.type = .str chatLit) (htx : m.text = .str s)
    (hlen : 500 < (jsTrim s).length)
    (hsl : ¬ (jsTrim s).headD ' ' = '/') :
    (∃ username, mapGet conn σ.clients = some username ∧
      step σ (.message conn (.parsed m) now) =
        (pushEvent σ (HEvent.chat username ((jsTrim s).take 500) now),
         [.broadcastOut (.chat username ((jsTrim s).take 500) now)])) ∧
    (((jsTrim s).take 500).length = 500) ∧
    (∀ (ss' : List (List Char)) (es' : List Ev) (u t : List Char) (n : Nat),
        HEvent.chat u t n ∈ (run ss' es').logAll → t.length ≤ 500) := by
  have hne : (jsTrim s).isEmpty = false := by
    cases hts : jsTrim s with
    | nil => rw [hts] at hlen; simp at hlen
    | cons c cs => rfl
  have hsl' : ¬ ((jsTrim s).take 500).headD ' ' = '/' := by
    cases hts : jsTrim s with
    | nil => rw [hts] at hlen; simp at hlen
    | cons c cs =>
      rw [hts] at hsl
      exact hsl
  have hsome : (mapGet conn σ.clients).isSome := by
    rw [hσ] at hreg ⊢
    exact (inv_run ss es).2.1 conn hreg
  obtain ⟨username, hg⟩ := Option.isSome_iff_exists.1 hsome
  refine ⟨⟨username, hg, ?_⟩, ?_, chat_text_bound_run⟩
  · exact step_plain_chat σ conn m now s username hcr hhs hreg hty htx hne hsl' hg
  · rw [List.length_take]
    omega

set_option maxRecDepth 100000 in
/-- witness for C10 amended: `alice` sends 600 `b`s; the broadcast and
appended chat event carry exactly the first 500 of them. -/
theorem c10_long_chat_truncated_witness :
    (step wS1 (.message 1 (.parsed (wChat wLongPlain)) 6) =
      (pushEvent wS1 (HEvent.chat "alice".data ((jsTrim wLongPlain).take 500) 6),
       [.broadcastOut (.chat "alice".data ((jsTrim wLongPlain).take 500) 6)])) ∧
    (((jsTrim wLongPlain).take 500).length = 500) := by
  have h := c10_long_chat_truncated [wTok] wES wS1 1 (wChat wLongPlain) 6 wLongPlain
    rfl rfl (by decide) (by decide) rfl rfl (by decide) (by decide)
  obtain ⟨⟨u, hg, heq⟩, hlen, _⟩ := h
  have hu : u = "alice".data := by
    have hgv : mapGet 1 wS1.clients = some "alice".data := by decide
    rw [hgv] at hg
    exact (Option.some.inj hg).symm
  rw [hu] at heq
  exact ⟨heq, hlen⟩
